import Mathlib

/-!
Verification of the simulation core of the falling-block matching game
(column grid, launched groups, match resolution, color recovery).

All numeric quantities (positions, velocities, time deltas) are embedded as
exact rationals; the TypeScript source computes with IEEE doubles, whose
arithmetic on the small integer constants used throughout the game coincides
with the rational results.  Blocks are identified by a numeric `id` playing
the role of JavaScript object identity (the source stores object references
in arrays, Sets and Maps; two containers alias the same block exactly when
the ids agree).
-/

namespace BlastOff

/-- Colors of blocks, from BlockColor in src/src/objects/Block.ts.
grey is the consumed state. -/
inductive BlockColor where
  | red
  | yellow
  | blue
  | green
  | purple
  | grey
  deriving Repr, DecidableEq, Inhabited

/-- PLAYABLE_COLORS from src/src/objects/Block.ts: the five non-grey colors,
in source order. -/
def PLAYABLE_COLORS : List BlockColor :=
  [.red, .yellow, .blue, .green, .purple]

/-- JavaScript Math.round: round half toward positive infinity. -/
def jsRound (q : ℚ) : ℤ := ⌊q + 1/2⌋

/-- Cell height and width, ROW_HEIGHT = COLUMN_WIDTH = 80 in
src/src/systems/ColumnManager.ts. -/
def ROW_HEIGHT : ℚ := 80

/-- COLUMNS = 9 in src/src/systems/ColumnManager.ts. -/
def COLUMNS : ℕ := 9

/-- ROWS = 12 in src/src/systems/ColumnManager.ts. -/
def ROWS : ℕ := 12

/-- GRID_OFFSET_Y = 30 in src/src/systems/ColumnManager.ts. -/
def GRID_OFFSET_Y : ℚ := 30

/-- Block from src/src/objects/Block.ts: a colored cell with pixel position,
grid coordinates, two velocity components and the grid-membership flag.
Rendering-only state (graphics, selected, depth) is omitted: it never feeds
back into the simulation fields. -/
structure Block where
  column : ℤ
  row : ℤ
  x : ℚ
  y : ℚ
  color : BlockColor
  velocityX : ℚ
  velocityY : ℚ
  isInGrid : Bool
  deriving Repr, DecidableEq, Inhabited

namespace Block

/-- Block.GRAVITY = 2000 px/s² in src/src/objects/Block.ts. -/
def GRAVITY : ℚ := 2000

/-- Block.setVelocity from src/src/objects/Block.ts. -/
def setVelocity (b : Block) (vx vy : ℚ) : Block :=
  { b with velocityX := vx, velocityY := vy }

/-- Block.update from src/src/objects/Block.ts (lines 172-189): gravity is
added to velocityY only when some velocity component is nonzero, then the
position integrates the (updated) velocity; a block at rest returns
immediately, untouched. -/
def update (b : Block) (delta : ℚ) : Block :=
  let deltaSeconds := delta / 1000
  if b.velocityX ≠ 0 ∨ b.velocityY ≠ 0 then
    let vy := b.velocityY + GRAVITY * deltaSeconds
    { b with
      velocityY := vy,
      x := b.x + b.velocityX * deltaSeconds,
      y := b.y + vy * deltaSeconds }
  else
    b

/-- Launch velocity table of Block.launch in src/src/objects/Block.ts
(lines 195-208): -1600 for a 3-match, -2400 for a 4-match, -3200 for 5 or
more (negative = upward). -/
def launchVelocity (matchSize : ℕ) : ℚ :=
  if matchSize = 3 then -1600
  else if matchSize = 4 then -2400
  else -3200

/-- Block.launch from src/src/objects/Block.ts (lines 195-208): set the
velocity straight up according to the match size and leave the grid. -/
def launch (b : Block) (matchSize : ℕ) : Block :=
  { b.setVelocity 0 (launchVelocity matchSize) with isInGrid := false }

end Block

/-- C10: for every block whose velocity components are all zero and every
time delta, the free-unit integration step Block.update leaves the block
completely unchanged (position, velocity and color included): gravity only
acts on blocks that are already moving. -/
theorem c10_restNoop (b : Block) (delta : ℚ)
    (hx : b.velocityX = 0) (hy : b.velocityY = 0) :
    b.update delta = b := by
  simp [Block.update, hx, hy]

theorem c10_restNoop_witness :
    (Block.update ⟨2, 5, 200, 470, .blue, 0, 0, true⟩ 16 : Block) =
      ⟨2, 5, 200, 470, .blue, 0, 0, true⟩ :=
  c10_restNoop ⟨2, 5, 200, 470, .blue, 0, 0, true⟩ 16 rfl rfl

/-- C3, counterexample: there is no single positive constant C with the
launch velocity of Block.launch equal to -C·matchSize: a 3-match launches at
-1600 (forcing C = 1600/3) while a 4-match launches at -2400 (forcing
C = 600).  The table -1600, -2400, -3200 is affine in the match size and
caps at five, not proportional. -/
theorem c3_launchVelocity_counterexample :
    ¬ ∃ C : ℚ, 0 < C ∧ ∀ n : ℕ, 3 ≤ n → ∀ b : Block,
      (b.launch n).velocityY = -(C * n) := by
  rintro ⟨C, _, h⟩
  have h3 := h 3 (by norm_num) default
  have h4 := h 4 (by norm_num) default
  simp [Block.launch, Block.launchVelocity, Block.setVelocity] at h3 h4
  have hC3 : C = 1600 / 3 := by linarith
  have hC4 : C = 600 := by linarith
  rw [hC3] at hC4
  norm_num at hC4

/-- C3, amended: a unit launched for a grid match of size n ≥ 3 gets the
upward velocity -800·(min n 5 - 1), that is -1600 for n = 3, -2400 for
n = 4 and -3200 for n ≥ 5: the magnitude grows with the match size but by
fixed tiers capped at five, not proportionally.  The launch also zeroes the
horizontal velocity and removes the unit from the grid. -/
theorem c3_launchVelocity_amended (b : Block) (n : ℕ) (h : 3 ≤ n) :
    (b.launch n).velocityY = -800 * ((min n 5 : ℕ) - 1 : ℚ) ∧
    (b.launch n).velocityX = 0 ∧
    (b.launch n).isInGrid = false := by
  refine ⟨?_, rfl, rfl⟩
  rcases Nat.lt_or_ge n 5 with h5 | h5
  · interval_cases n <;> norm_num [Block.launch, Block.launchVelocity, Block.setVelocity]
  · have h3 : n ≠ 3 := by omega
    have h4 : n ≠ 4 := by omega
    have hm : min n 5 = 5 := by omega
    simp [Block.launch, Block.launchVelocity, Block.setVelocity, h3, h4, hm]
    norm_num

theorem c3_launchVelocity_amended_witness :
    (Block.launch ⟨0, 0, 40, 470, .red, 0, 0, true⟩ 4).velocityY =
      -800 * ((min 4 5 : ℕ) - 1 : ℚ) ∧
    (Block.launch ⟨0, 0, 40, 470, .red, 0, 0, true⟩ 4).velocityX = 0 ∧
    (Block.launch ⟨0, 0, 40, 470, .red, 0, 0, true⟩ 4).isInGrid = false :=
  c3_launchVelocity_amended ⟨0, 0, 40, 470, .red, 0, 0, true⟩ 4 (by norm_num)

/-!
The launched-group side of the simulation.  The Block variant used by
BlockGroup, ColumnManager, MatchDetector and the level scene (bundled with
src/unnamed/part_003) carries a single vertical velocity, a recovery flag
set and the consumed state; its simulation fields are embedded as CBlock.
The numeric id stands for JavaScript object identity.
-/

/-- The simulation fields of the single-velocity Block used by the group,
column and match systems (src/unnamed/part_003).  The x coordinate is
determined by the column center and never feeds into the logic of the
embedded operations, so it is omitted; rendering state, flame sprites and
the scheduler-owned recovery timer are likewise external to this state. -/
structure CBlock where
  id : ℕ
  column : ℤ
  row : ℤ
  y : ℚ
  color : BlockColor
  velocityY : ℚ
  isInGrid : Bool
  deriving Repr, DecidableEq, Inhabited

/-- Whether a block is grey (consumed), Block.isGrey. -/
def CBlock.isGrey (b : CBlock) : Bool :=
  b.color = .grey

/-- Stable insertion of a block into a list ascending by y (earlier input
elements stay first on equal keys, as JavaScript Array.sort is stable). -/
def insertByY (x : CBlock) : List CBlock → List CBlock
  | [] => [x]
  | e :: t => if x.y ≤ e.y then x :: e :: t else e :: insertByY x t

/-- Stable sort of blocks ascending by y, the comparator (a, b) => a.y - b.y. -/
def sortCBlocksByY : List CBlock → List CBlock
  | [] => []
  | x :: xs => insertByY x (sortCBlocksByY xs)

/-- Stable insertion of a block into a list ascending by column. -/
def insertByColumn (x : CBlock) : List CBlock → List CBlock
  | [] => [x]
  | e :: t => if x.column ≤ e.column then x :: e :: t else e :: insertByColumn x t

/-- Stable sort of blocks ascending by column, the comparator
(a, b) => a.column - b.column. -/
def sortCBlocksByColumn : List CBlock → List CBlock
  | [] => []
  | x :: xs => insertByColumn x (sortCBlocksByColumn xs)

/-- Stable insertion of a block into a list descending by row. -/
def insertByRowDesc (x : CBlock) : List CBlock → List CBlock
  | [] => [x]
  | e :: t => if e.row ≤ x.row then x :: e :: t else e :: insertByRowDesc x t

/-- Stable sort of blocks descending by row, the comparator
(a, b) => b.row - a.row. -/
def sortCBlocksByRowDesc : List CBlock → List CBlock
  | [] => []
  | x :: xs => insertByRowDesc x (sortCBlocksByRowDesc xs)

/-- The ids of a list of blocks. -/
def idsOf (l : List CBlock) : List ℕ :=
  l.map (fun b => b.id)

/-- BlockGroup.DESCENT_VELOCITY = 100 px/s (src/unnamed/part_003). -/
def DESCENT_VELOCITY : ℚ := 100

/-- BlockGroup.MAX_DESCENT_VELOCITY = 70 px/s (src/unnamed/part_003). -/
def MAX_DESCENT_VELOCITY : ℚ := 70

/-- BlockGroup.MAX_UPWARD_VELOCITY = -700 px/s (src/unnamed/part_003): caps
the applied upward movement, never the stored velocity. -/
def MAX_UPWARD_VELOCITY : ℚ := -700

/-- BlockGroup.BASE_GRAVITY = 150 px/s² (src/unnamed/part_003). -/
def BASE_GRAVITY : ℚ := 150

/-- BlockGroup.MASS_GRAVITY_FACTOR = 75 px/s² per member
(src/unnamed/part_003). -/
def MASS_GRAVITY_FACTOR : ℚ := 75

/-- BlockGroup.MERGE_VELOCITY_BONUS = -650 px/s (src/unnamed/part_003). -/
def MERGE_VELOCITY_BONUS : ℚ := -650

/-- BlockGroup from src/unnamed/part_003: the member Set (insertion order,
identity-deduplicated), the shared velocity, the boost count and the grace
period trackers. -/
structure BlockGroup where
  blocks : List CBlock
  velocityY : ℚ
  boostCount : ℕ
  wasMovingUpward : Bool
  framesMovingDownward : ℕ
  deriving Repr, DecidableEq, Inhabited

namespace BlockGroup

/-- Candidate selection step of findClosestStackPosition: keep a candidate
position only when strictly closer to the incoming block than the best so
far (the source tracks minDistance starting at Infinity, so the first
candidate always wins). -/
def candStep (blockY : ℚ) (acc : ℚ × ℚ) (cand : ℚ) : ℚ × ℚ :=
  if |blockY - cand| < acc.1 then (|blockY - cand|, cand) else acc

/-- The in-between candidates of findClosestStackPosition: for each adjacent
pair of same-column members (sorted by y) with a gap larger than
1.5·ROW_HEIGHT, the slot one cell below the upper member. -/
def gapCandidates (sorted : List CBlock) : List ℚ :=
  (sorted.zip sorted.tail).filterMap (fun p =>
    if ROW_HEIGHT * (3 / 2) < p.2.y - p.1.y then some (p.1.y + ROW_HEIGHT) else none)

/-- BlockGroup.findClosestStackPosition (src/unnamed/part_003): the y slot
nearest the block among one cell above the column top, one cell below the
column bottom and the large gaps in between; a block entering an untouched
column keeps its own y. -/
def findClosestStackPosition (g : BlockGroup) (b : CBlock) : Option ℚ :=
  let sameColumnBlocks := g.blocks.filter (fun x => decide (x.column = b.column))
  match sortCBlocksByY sameColumnBlocks with
  | [] => some b.y
  | top :: rest =>
    let sorted := top :: rest
    let bottom := sorted.getLast (by simp)
    let aboveTop := top.y - ROW_HEIGHT
    let start : ℚ × ℚ := (|b.y - aboveTop|, aboveTop)
    let afterBottom := candStep b.y start (bottom.y + ROW_HEIGHT)
    some ((gapCandidates sorted).foldl (candStep b.y) afterBottom).2

/-- Membership part of BlockGroup.addBlock: Set.add of the (possibly
snapped) block b1 with the velocity sync applied to it.  An id already
present means the very same JavaScript object: Set.add leaves the
membership unchanged while the snapping and velocity sync have already
acted on that object. -/
def addBlockBlocks (g : BlockGroup) (b1 : CBlock) : List CBlock :=
  if g.blocks.any (fun x => x.id = b1.id) then
    g.blocks.map (fun x =>
      if x.id = b1.id then { x with y := b1.y, velocityY := g.velocityY } else x)
  else
    g.blocks ++ [{ b1 with velocityY := g.velocityY }]

/-- BlockGroup.addBlock (src/unnamed/part_003, lines 42-56): optionally snap
the block to the closest stack slot, add it to the member Set and sync its
velocity with the group. -/
def addBlock (g : BlockGroup) (b : CBlock) (skipRepositioning : Bool) : BlockGroup :=
  let b1 :=
    if skipRepositioning then b
    else
      match g.findClosestStackPosition b with
      | some targetY => { b with y := targetY }
      | none => b
  { g with blocks := addBlockBlocks g b1 }

/-- BlockGroup.setVelocity (src/unnamed/part_003, lines 210-217): store the
velocity and push it to every member. -/
def setVelocity (g : BlockGroup) (v : ℚ) : BlockGroup :=
  { g with velocityY := v, blocks := g.blocks.map (fun x => { x with velocityY := v }) }

/-- BlockGroup.addVelocity (src/unnamed/part_003, lines 244-246): force
stacking adds to the stored velocity through setVelocity. -/
def addVelocity (g : BlockGroup) (dv : ℚ) : BlockGroup :=
  g.setVelocity (g.velocityY + dv)

/-- BlockGroup.incrementBoostCount (src/unnamed/part_003, lines 229-231). -/
def incrementBoostCount (g : BlockGroup) : BlockGroup :=
  { g with boostCount := g.boostCount + 1 }

/-- BlockGroup.update (src/unnamed/part_003, lines 252-292): size-scaled
gravity on the stored velocity, grace-period bookkeeping on the sign, a cap
on the downward velocity, a velocity sync to all members, and a rigid move
of every member by the upward-clamped applied velocity. -/
def update (g : BlockGroup) (delta : ℚ) : BlockGroup :=
  let deltaSeconds := delta / 1000
  let effectiveGravity := BASE_GRAVITY + (g.blocks.length : ℚ) * MASS_GRAVITY_FACTOR
  let v1 := g.velocityY + effectiveGravity * deltaSeconds
  let up := if v1 < 0 then true else g.wasMovingUpward
  let frames :=
    if v1 < 0 then 0
    else if 0 < v1 ∧ g.wasMovingUpward then g.framesMovingDownward + 1
    else g.framesMovingDownward
  let v2 := if MAX_DESCENT_VELOCITY < v1 then MAX_DESCENT_VELOCITY else v1
  let g1 := { g with wasMovingUpward := up, framesMovingDownward := frames }
  let g2 := g1.setVelocity v2
  let applied := if v2 < MAX_UPWARD_VELOCITY then MAX_UPWARD_VELOCITY else v2
  { g2 with blocks := g2.blocks.map (fun x => { x with y := x.y + applied * deltaSeconds }) }

/-- BlockGroup.realignBlocks (src/unnamed/part_003): snap every member to
the 80px grid anchored at the topmost (smallest-y) member. -/
def realignBlocks (g : BlockGroup) : BlockGroup :=
  match g.blocks with
  | [] => g
  | b0 :: rest =>
    let topBlock := rest.foldl (fun m x => if x.y < m.y then x else m) b0
    let referenceY := topBlock.y
    { g with blocks := (b0 :: rest).map (fun x =>
        { x with y := referenceY + (jsRound ((x.y - referenceY) / ROW_HEIGHT) : ℚ) * ROW_HEIGHT }) }

/-- BlockGroup.mergeWith (src/unnamed/part_003, lines 338-368): absorb the
other group's members without repositioning, combine the velocities as a
size-weighted average plus the merge bonus, take the larger boost count plus
one, and realign the member grid. -/
def mergeWith (g other : BlockGroup) : BlockGroup :=
  let g1 := other.blocks.foldl (fun acc x => acc.addBlock x true) g
  let totalSize := g1.blocks.length
  let g2 :=
    if 0 < totalSize then
      let thisSize : ℤ := (g1.blocks.length : ℤ) - (other.blocks.length : ℤ)
      let v := (g1.velocityY * (thisSize : ℚ) +
          other.velocityY * (other.blocks.length : ℚ)) / (totalSize : ℚ) +
        MERGE_VELOCITY_BONUS
      g1.setVelocity v
    else g1
  let g3 := { g2 with boostCount := max g2.boostCount other.boostCount + 1 }
  g3.realignBlocks

end BlockGroup

/-- ColumnManager.checkGroupCollision (src/src/systems/ColumnManager.ts):
two groups collide when some member of one sits in the same column within
one cell height of some member of the other. -/
def checkGroupCollision (group1 group2 : BlockGroup) : Bool :=
  group1.blocks.any (fun b1 => group2.blocks.any (fun b2 =>
    decide (b1.column = b2.column ∧ |b1.y - b2.y| < ROW_HEIGHT)))

theorem setVelocity_sync (g : BlockGroup) (v : ℚ) :
    (g.setVelocity v).velocityY = v ∧
    ∀ x ∈ (g.setVelocity v).blocks, x.velocityY = v := by
  refine ⟨rfl, ?_⟩
  intro x hx
  simp only [BlockGroup.setVelocity, List.mem_map] at hx
  obtain ⟨a, _, rfl⟩ := hx
  rfl

theorem realign_velocityY (g : BlockGroup) :
    (g.realignBlocks).velocityY = g.velocityY := by
  unfold BlockGroup.realignBlocks
  cases g.blocks <;> rfl

theorem realign_boostCount (g : BlockGroup) :
    (g.realignBlocks).boostCount = g.boostCount := by
  unfold BlockGroup.realignBlocks
  cases g.blocks <;> rfl

theorem realign_sync (g : BlockGroup)
    (h : ∀ x ∈ g.blocks, x.velocityY = g.velocityY) :
    ∀ x ∈ (g.realignBlocks).blocks, x.velocityY = (g.realignBlocks).velocityY := by
  intro x hx
  rw [realign_velocityY]
  unfold BlockGroup.realignBlocks at hx
  cases hb : g.blocks with
  | nil =>
    rw [hb] at hx
    exact h x hx
  | cons b0 rest =>
    rw [hb] at hx
    simp only [List.mem_map] at hx
    obtain ⟨a, ha, rfl⟩ := hx
    have : a ∈ g.blocks := by rw [hb]; exact ha
    exact h a this

theorem addBlock_velocityY (g : BlockGroup) (b : CBlock) (skip : Bool) :
    (g.addBlock b skip).velocityY = g.velocityY :=
  rfl

theorem addBlock_boostCount (g : BlockGroup) (b : CBlock) (skip : Bool) :
    (g.addBlock b skip).boostCount = g.boostCount :=
  rfl

theorem addBlockBlocks_sync (g : BlockGroup) (b1 : CBlock)
    (h : ∀ z ∈ g.blocks, z.velocityY = g.velocityY) :
    ∀ x ∈ BlockGroup.addBlockBlocks g b1, x.velocityY = g.velocityY := by
  intro x hx
  unfold BlockGroup.addBlockBlocks at hx
  by_cases hc : (g.blocks.any fun z => decide (z.id = b1.id)) = true
  · rw [if_pos hc] at hx
    simp only [List.mem_map] at hx
    obtain ⟨a, ha, rfl⟩ := hx
    by_cases hid : a.id = b1.id
    · rw [if_pos hid]
    · rw [if_neg hid]
      exact h a ha
  · rw [if_neg hc] at hx
    rcases List.mem_append.mp hx with hx | hx
    · exact h x hx
    · rcases List.mem_singleton.mp hx with rfl
      rfl

theorem addBlock_sync (g : BlockGroup) (b : CBlock) (skip : Bool)
    (h : ∀ x ∈ g.blocks, x.velocityY = g.velocityY) :
    ∀ x ∈ (g.addBlock b skip).blocks, x.velocityY = (g.addBlock b skip).velocityY := by
  intro x hx
  rw [addBlock_velocityY]
  exact addBlockBlocks_sync g _ h x hx

theorem update_sync (g : BlockGroup) (d : ℚ) :
    ∀ x ∈ (g.update d).blocks, x.velocityY = (g.update d).velocityY := by
  intro x hx
  simp only [BlockGroup.update, BlockGroup.setVelocity, List.map_map, List.mem_map] at hx ⊢
  obtain ⟨a, _, rfl⟩ := hx
  rfl

theorem mergeWith_sync (g h : BlockGroup) :
    ∀ x ∈ (g.mergeWith h).blocks, x.velocityY = (g.mergeWith h).velocityY := by
  unfold BlockGroup.mergeWith
  dsimp only
  refine realign_sync _ ?_
  intro z hz
  dsimp only at hz ⊢
  by_cases hpos : 0 < (h.blocks.foldl (fun acc x => acc.addBlock x true) g).blocks.length
  · rw [if_pos hpos] at hz ⊢
    exact (setVelocity_sync _ _).2 z hz
  · rw [if_neg hpos] at hz ⊢
    have hnil : (h.blocks.foldl (fun acc x => acc.addBlock x true) g).blocks = [] :=
      List.length_eq_zero.mp (by omega)
    rw [hnil] at hz
    simp at hz

/-- C9: after each of the group operations addBlock, setVelocity,
addVelocity, update and mergeWith, every member block carries exactly the
group's stored velocity.  The mutating operations setVelocity, addVelocity,
update and mergeWith re-sync all members unconditionally; addBlock syncs
the incoming block and preserves the sync of the existing members. -/
theorem c9_velocitySync (g h : BlockGroup) (b : CBlock) (v delta : ℚ) (skip : Bool)
    (hsync : ∀ x ∈ g.blocks, x.velocityY = g.velocityY) :
    (∀ x ∈ (g.addBlock b skip).blocks, x.velocityY = (g.addBlock b skip).velocityY) ∧
    (∀ x ∈ (g.setVelocity v).blocks, x.velocityY = (g.setVelocity v).velocityY) ∧
    (∀ x ∈ (g.addVelocity v).blocks, x.velocityY = (g.addVelocity v).velocityY) ∧
    (∀ x ∈ (g.update delta).blocks, x.velocityY = (g.update delta).velocityY) ∧
    (∀ x ∈ (g.mergeWith h).blocks, x.velocityY = (g.mergeWith h).velocityY) := by
  refine ⟨addBlock_sync g b skip hsync, ?_, ?_, update_sync g delta, mergeWith_sync g h⟩
  · intro x hx
    exact (setVelocity_sync g v).2 x hx
  · intro x hx
    exact (setVelocity_sync g (g.velocityY + v)).2 x hx

/-- A one-member group at rest used to instantiate the sync invariant. -/
def g9 : BlockGroup :=
  ⟨[⟨1, 0, 5, 470, .red, 0, true⟩], 0, 0, false, 0⟩

theorem addBlock_true_blocks (g : BlockGroup) (b : CBlock) :
    (g.addBlock b true).blocks = BlockGroup.addBlockBlocks g b := by
  unfold BlockGroup.addBlock
  rfl

theorem addBlockBlocks_notmem (g : BlockGroup) (b1 : CBlock)
    (h : b1.id ∉ idsOf g.blocks) :
    BlockGroup.addBlockBlocks g b1 = g.blocks ++ [{ b1 with velocityY := g.velocityY }] := by
  unfold BlockGroup.addBlockBlocks
  rw [if_neg]
  intro hc
  simp only [List.any_eq_true, decide_eq_true_eq] at hc
  obtain ⟨z, hz, hid⟩ := hc
  refine h ?_
  rw [← hid]
  simpa [idsOf] using List.mem_map_of_mem (fun b => b.id) hz

theorem mergeFold (l : List CBlock) (g : BlockGroup)
    (hdisj : ∀ x ∈ l, x.id ∉ idsOf g.blocks)
    (hl : (idsOf l).Nodup) :
    (l.foldl (fun acc x => acc.addBlock x true) g).blocks =
      g.blocks ++ l.map (fun b => { b with velocityY := g.velocityY }) ∧
    (l.foldl (fun acc x => acc.addBlock x true) g).velocityY = g.velocityY ∧
    (l.foldl (fun acc x => acc.addBlock x true) g).boostCount = g.boostCount := by
  induction l generalizing g with
  | nil => simp
  | cons x xs ih =>
    have hx : x.id ∉ idsOf g.blocks := hdisj x (by simp)
    have hcons : (∀ z ∈ xs, ¬ z.id = x.id) ∧ (List.map (fun b => b.id) xs).Nodup := by
      simpa [idsOf] using hl
    have hstep : (g.addBlock x true).blocks =
        g.blocks ++ [{ x with velocityY := g.velocityY }] := by
      rw [addBlock_true_blocks, addBlockBlocks_notmem g x hx]
    have hdisj1 : ∀ z ∈ xs, z.id ∉ idsOf (g.addBlock x true).blocks := by
      intro z hz
      rw [hstep]
      simp only [idsOf, List.map_append, List.mem_append, List.map_cons, List.map_nil,
        List.mem_cons, List.not_mem_nil]
      rintro (hmem | hmem)
      · exact hdisj z (by simp [hz]) (by simpa [idsOf] using hmem)
      · rcases hmem with hmem | hmem
        · exact hcons.1 z hz hmem
        · exact hmem
    have hl1 : (idsOf xs).Nodup := hcons.2
    have hveq : (g.addBlock x true).velocityY = g.velocityY := rfl
    have hrec := ih (g.addBlock x true) hdisj1 hl1
    rw [hveq] at hrec
    simp only [List.foldl_cons]
    refine ⟨?_, ?_, ?_⟩
    · rw [hrec.1, hstep]
      simp [List.append_assoc]
    · rw [hrec.2.1]
    · rw [hrec.2.2]
      rfl

theorem realign_length (g : BlockGroup) :
    (g.realignBlocks).blocks.length = g.blocks.length := by
  unfold BlockGroup.realignBlocks
  cases hb : g.blocks <;> simp [hb]

theorem realign_ids (g : BlockGroup) :
    idsOf (g.realignBlocks).blocks = idsOf g.blocks := by
  unfold BlockGroup.realignBlocks
  cases hb : g.blocks with
  | nil => rw [hb]
  | cons b0 rest =>
    simp [hb, idsOf, List.map_map, Function.comp]

theorem realign_grid (g : BlockGroup) :
    ∃ r : ℚ, ∀ b ∈ (g.realignBlocks).blocks, ∃ k : ℤ, b.y = r + ROW_HEIGHT * k := by
  unfold BlockGroup.realignBlocks
  cases hb : g.blocks with
  | nil => exact ⟨0, by simp [hb]⟩
  | cons b0 rest =>
    refine ⟨(rest.foldl (fun m x => if x.y < m.y then x else m) b0).y, ?_⟩
    intro b hb2
    simp only [List.mem_map] at hb2
    obtain ⟨a, _, rfl⟩ := hb2
    refine ⟨jsRound ((a.y - (rest.foldl (fun m x => if x.y < m.y then x else m) b0).y) / ROW_HEIGHT), ?_⟩
    dsimp only
    ring

theorem collision_nonempty (ga gb : BlockGroup)
    (h : checkGroupCollision ga gb = true) :
    ga.blocks ≠ [] ∧ gb.blocks ≠ [] := by
  unfold checkGroupCollision at h
  simp only [List.any_eq_true] at h
  obtain ⟨b1, hb1, b2, hb2, _⟩ := h
  exact ⟨List.ne_nil_of_mem hb1, List.ne_nil_of_mem hb2⟩

/-- C5: two live groups with members in the same column within one cell
height of each other merge (the scene reacts to checkGroupCollision by
calling mergeWith): the combined velocity is the member-count-weighted
average of the two velocities plus the fixed upward merge bonus of -650,
the combined boost count is the maximum of the two plus one, the absorbed
membership is the disjoint union, and every member ends on the 80px grid
anchored at the topmost member. -/
theorem c5_groupMerge (ga gb : BlockGroup)
    (hcol : checkGroupCollision ga gb = true)
    (hnd : (idsOf ga.blocks ++ idsOf gb.blocks).Nodup) :
    (ga.mergeWith gb).velocityY =
      (ga.velocityY * (ga.blocks.length : ℚ) + gb.velocityY * (gb.blocks.length : ℚ)) /
        ((ga.blocks.length : ℚ) + (gb.blocks.length : ℚ)) + MERGE_VELOCITY_BONUS ∧
    (ga.mergeWith gb).boostCount = max ga.boostCount gb.boostCount + 1 ∧
    (ga.mergeWith gb).blocks.length = ga.blocks.length + gb.blocks.length ∧
    ∃ r : ℚ, ∀ b ∈ (ga.mergeWith gb).blocks, ∃ k : ℤ, b.y = r + ROW_HEIGHT * k := by
  obtain ⟨hna, hnb⟩ := collision_nonempty ga gb hcol
  obtain ⟨hnda, hndb, hdisjids⟩ := List.nodup_append.mp hnd
  have hdisj : ∀ x ∈ gb.blocks, x.id ∉ idsOf ga.blocks := by
    intro x hx hmem
    exact hdisjids hmem (by simpa [idsOf] using List.mem_map_of_mem (fun b => b.id) hx)
  obtain ⟨hfb, hfv, hfc⟩ := mergeFold gb.blocks ga hdisj hndb
  have hlen : (gb.blocks.foldl (fun acc x => acc.addBlock x true) ga).blocks.length =
      ga.blocks.length + gb.blocks.length := by
    rw [hfb]; simp
  have hpos : 0 < (gb.blocks.foldl (fun acc x => acc.addBlock x true) ga).blocks.length := by
    rw [hlen]
    have := List.length_pos.mpr hna
    omega
  unfold BlockGroup.mergeWith
  dsimp only
  rw [if_pos hpos]
  refine ⟨?_, ?_, ?_, realign_grid _⟩
  · rw [realign_velocityY]
    simp only [BlockGroup.setVelocity]
    rw [hfv, hlen]
    push_cast
    ring_nf
  · rw [realign_boostCount]
    simp only [BlockGroup.setVelocity]
    rw [hfc]
  · rw [realign_length]
    simp only [BlockGroup.setVelocity, List.length_map]
    exact hlen

/-- Two one-member colliding groups used to instantiate the merge law. -/
def g5a : BlockGroup :=
  ⟨[⟨1, 0, 3, 100, .red, -200, false⟩], -200, 0, true, 0⟩

/-- The second group for the merge witness. -/
def g5b : BlockGroup :=
  ⟨[⟨2, 0, 4, 150, .blue, -100, false⟩], -100, 2, true, 0⟩

theorem c5_groupMerge_witness :
    (g5a.mergeWith g5b).velocityY =
      (g5a.velocityY * (g5a.blocks.length : ℚ) + g5b.velocityY * (g5b.blocks.length : ℚ)) /
        ((g5a.blocks.length : ℚ) + (g5b.blocks.length : ℚ)) + MERGE_VELOCITY_BONUS ∧
    (g5a.mergeWith g5b).boostCount = max g5a.boostCount g5b.boostCount + 1 ∧
    (g5a.mergeWith g5b).blocks.length = g5a.blocks.length + g5b.blocks.length ∧
    ∃ r : ℚ, ∀ b ∈ (g5a.mergeWith g5b).blocks, ∃ k : ℤ, b.y = r + ROW_HEIGHT * k :=
  c5_groupMerge g5a g5b
    (by norm_num [checkGroupCollision, g5a, g5b, ROW_HEIGHT, abs_le])
    (by norm_num [idsOf, g5a, g5b])

/-- Insertion into the matched Set: ids join in order, duplicates are kept
once (Set.add semantics). -/
def addMatched (matched : List ℕ) (ids : List ℕ) : List ℕ :=
  ids.foldl (fun acc i => if i ∈ acc then acc else acc ++ [i]) matched

/-- Closing a run: a finished consecutive sequence of length ≥ 3 joins the
matched Set. -/
def flushRun (matched : List ℕ) (consecutive : List CBlock) : List ℕ :=
  if 3 ≤ consecutive.length then addMatched matched (idsOf consecutive) else matched

/-- The row clustering of detectHorizontalMatchesInBlocks
(src/src/systems/MatchDetector.ts): walk the y-sorted blocks and cut a new
cluster when a block sits more than ROW_TOLERANCE = 20px below the first
block of the current cluster. -/
def clusterRows (sorted : List CBlock) : List (List CBlock) :=
  match sorted with
  | [] => []
  | b0 :: rest =>
    let step := fun (acc : List (List CBlock) × List CBlock) (b : CBlock) =>
      match acc.2 with
      | [] => (acc.1, [b])
      | c0 :: _ =>
        if |b.y - c0.y| ≤ 20 then (acc.1, acc.2 ++ [b]) else (acc.1 ++ [acc.2], [b])
    let r := rest.foldl step ([], [b0])
    r.1 ++ [r.2]

/-- The horizontal run scan of detectHorizontalMatchesInBlocks over one row
cluster sorted by column: a run continues on equal color and a column index
one to the right of the previous block. -/
def runScanH (matched : List ℕ) (cluster : List CBlock) : List ℕ :=
  let step := fun (st : Option BlockColor × List CBlock × List ℕ) (b : CBlock) =>
    let isAdjacent : Bool :=
      match st.2.1.getLast? with
      | none => true
      | some p => decide (b.column = p.column + 1)
    if st.1 = some b.color ∧ isAdjacent = true then
      (st.1, st.2.1 ++ [b], st.2.2)
    else
      (some b.color, [b], flushRun st.2.2 st.2.1)
  let r := cluster.foldl step (none, [], matched)
  flushRun r.2.2 r.2.1

/-- detectHorizontalMatchesInBlocks (src/src/systems/MatchDetector.ts):
cluster the non-grey members by approximate row, then scan each cluster of
at least three blocks for color runs through adjacent columns. -/
def detectHorizontalMatchesInBlocks (blocks : List CBlock) (matched : List ℕ) : List ℕ :=
  let activeBlocks := blocks.filter (fun b => !b.isGrey)
  if activeBlocks.length < 3 then matched
  else
    (clusterRows (sortCBlocksByY activeBlocks)).foldl (fun m cluster =>
      if cluster.length < 3 then m
      else runScanH m (sortCBlocksByColumn cluster)) matched

/-- The Map construction of detectVerticalMatchesInBlocks: group the
non-grey members by column, preserving first-occurrence order (JavaScript
Map iteration order). -/
def groupByColumn (blocks : List CBlock) : List (ℤ × List CBlock) :=
  blocks.foldl (fun acc b =>
    if b.isGrey then acc
    else if acc.any (fun p => decide (p.1 = b.column)) then
      acc.map (fun p => if p.1 = b.column then (p.1, p.2 ++ [b]) else p)
    else acc ++ [(b.column, [b])]) []

/-- The vertical run scan of detectVerticalMatchesInBlocks over one column
of members sorted by y: a run continues on equal color and a spacing within
25 percent of one cell height of the previous block. -/
def runScanV (matched : List ℕ) (columnBlocks : List CBlock) : List ℕ :=
  let step := fun (st : Option BlockColor × List CBlock × List ℕ) (b : CBlock) =>
    if b.isGrey then (none, ([] : List CBlock), flushRun st.2.2 st.2.1)
    else if st.1 = some b.color ∧ 0 < st.2.1.length then
      match st.2.1.getLast? with
      | some prev =>
        if |b.y - prev.y - ROW_HEIGHT| ≤ ROW_HEIGHT * (1/4) then
          (st.1, st.2.1 ++ [b], st.2.2)
        else (some b.color, [b], flushRun st.2.2 st.2.1)
      | none => (some b.color, [b], flushRun st.2.2 st.2.1)
    else (some b.color, [b], flushRun st.2.2 st.2.1)
  let r := columnBlocks.foldl step (none, [], matched)
  flushRun r.2.2 r.2.1

/-- detectVerticalMatchesInBlocks (src/src/systems/MatchDetector.ts). -/
def detectVerticalMatchesInBlocks (blocks : List CBlock) (matched : List ℕ) : List ℕ :=
  (groupByColumn blocks).foldl (fun m p =>
    if p.2.length < 3 then m else runScanV m (sortCBlocksByY p.2)) matched

/-- The matched Set of checkMatchesInGroup: horizontal runs first, vertical
runs second, each over the physical member positions. -/
def detectGroupMatches (blocks : List CBlock) : List ℕ :=
  detectVerticalMatchesInBlocks blocks (detectHorizontalMatchesInBlocks blocks [])

/-- MatchDetector.getLaunchVelocity (src/src/systems/MatchDetector.ts,
lines 452-461): the base launch contribution is -300 per matched block; a
match inside a moving group multiplies it by 1 + 2^boostCount. -/
def getLaunchVelocity (matchSize : ℕ) (isGroupInMotion : Bool) (boostCount : ℕ) : ℚ :=
  let baseVelocity := (matchSize : ℚ) * (-300)
  if !isGroupInMotion then baseVelocity
  else baseVelocity * (1 + 2 ^ boostCount)

/-- MatchDetector.checkMatchesInGroup (src/src/systems/MatchDetector.ts,
lines 275-307): with at least three members, detect runs among the member
positions; on a match, grey the matched members, add the boosted launch
velocity computed from the current boost count, then increment the boost
count, returning the matched count. -/
def checkMatchesInGroup (g : BlockGroup) : BlockGroup × ℕ :=
  if g.blocks.length < 3 then (g, 0)
  else
    let matched := detectGroupMatches g.blocks
    if matched.isEmpty then (g, 0)
    else
      let g1 := { g with blocks := g.blocks.map (fun (b : CBlock) =>
          if b.id ∈ matched then { b with color := BlockColor.grey } else b) }
      let g2 := g1.addVelocity (getLaunchVelocity matched.length true g1.boostCount)
      (g2.incrementBoostCount, matched.length)

/-- C4: a match of size n detected inside an in-motion group with boost
count b adds exactly baseLaunch(n) · (1 + 2^b) to the group's velocity,
with baseLaunch(n) = -300·n and b read before the increment; afterwards the
boost count is b + 1 and the reported score contribution is n. -/
theorem c4_boostedVelocity (g : BlockGroup)
    (h3 : ¬ g.blocks.length < 3)
    (hm : ¬ (detectGroupMatches g.blocks).isEmpty = true) :
    (checkMatchesInGroup g).1.velocityY =
      g.velocityY + ((detectGroupMatches g.blocks).length : ℚ) * (-300) * (1 + 2 ^ g.boostCount) ∧
    (checkMatchesInGroup g).1.boostCount = g.boostCount + 1 ∧
    (checkMatchesInGroup g).2 = (detectGroupMatches g.blocks).length := by
  unfold checkMatchesInGroup
  dsimp only
  rw [if_neg h3, if_neg hm]
  refine ⟨?_, rfl, rfl⟩
  simp only [BlockGroup.incrementBoostCount, BlockGroup.addVelocity, BlockGroup.setVelocity,
    getLaunchVelocity]
  norm_num [mul_assoc]

/-- A three-member red column group with boost count one, matched while in
motion. -/
def g4 : BlockGroup :=
  ⟨[⟨1, 2, 0, 100, .red, -500, false⟩, ⟨2, 2, 0, 180, .red, -500, false⟩,
    ⟨3, 2, 0, 260, .red, -500, false⟩], -500, 1, true, 0⟩

theorem g4_sorted : sortCBlocksByY g4.blocks = g4.blocks := by
  simp [g4, sortCBlocksByY, insertByY]
  all_goals norm_num

theorem g4_groups : groupByColumn g4.blocks = [(2, g4.blocks)] := by
  simp [g4, groupByColumn, CBlock.isGrey]

theorem g4_scan : runScanV [] g4.blocks = [1, 2, 3] := by
  simp [g4, runScanV, flushRun, addMatched, idsOf, CBlock.isGrey, ROW_HEIGHT, abs_le]
  all_goals norm_num

theorem g4_horiz : detectHorizontalMatchesInBlocks g4.blocks [] = [] := by
  simp [g4, detectHorizontalMatchesInBlocks, clusterRows, runScanH, sortCBlocksByY,
    insertByY, sortCBlocksByColumn, insertByColumn, flushRun, addMatched, idsOf,
    CBlock.isGrey, abs_le]
  all_goals norm_num

theorem g4_detect : detectGroupMatches g4.blocks = [1, 2, 3] := by
  unfold detectGroupMatches
  rw [g4_horiz]
  unfold detectVerticalMatchesInBlocks
  rw [g4_groups]
  simp only [List.foldl_cons, List.foldl_nil]
  have hlen : ¬ ((2, g4.blocks).2.length < 3) := by simp [g4]
  rw [if_neg hlen]
  rw [g4_sorted, g4_scan]

theorem c4_boostedVelocity_witness :
    (checkMatchesInGroup g4).1.velocityY =
      g4.velocityY + ((detectGroupMatches g4.blocks).length : ℚ) * (-300) * (1 + 2 ^ g4.boostCount) ∧
    (checkMatchesInGroup g4).1.boostCount = g4.boostCount + 1 ∧
    (checkMatchesInGroup g4).2 = (detectGroupMatches g4.blocks).length :=
  c4_boostedVelocity g4 (by norm_num [g4]) (by rw [g4_detect]; norm_num)

/-!
The board state owned by ColumnManager and the grid-side match resolution.
Blocks are aliased by the master list, the columns and the groups; the
containers store ids (object references), and mutation of a block is a
rewrite of the master list visible through every container.
-/

/-- A live group as stored through the block store: member ids, the shared
velocity and the boost count of the underlying BlockGroup (the grace-period
trackers play no role in the manager operations embedded here). -/
structure MGroup where
  ids : List ℕ
  velocityY : ℚ
  boostCount : ℕ
  deriving Repr, DecidableEq

/-- The board state of ColumnManager (src/src/systems/ColumnManager.ts):
the master block list, the nine per-column id lists (kept sorted by y) and
the live groups. -/
structure MState where
  blocks : List CBlock
  cols : List (List ℕ)
  groups : List MGroup
  deriving Repr, DecidableEq

/-- Dereference an object id to its block. -/
def lookup (s : MState) (i : ℕ) : Option CBlock :=
  s.blocks.find? (fun b => b.id = i)

/-- ColumnManager.isValidColumn: 0 ≤ c < 9. -/
def isValidColumn (c : ℤ) : Bool :=
  decide (0 ≤ c ∧ c < (COLUMNS : ℤ))

/-- The id list of one column (this.columns[c] content). -/
def colIds (s : MState) (c : ℤ) : List ℕ :=
  if 0 ≤ c then s.cols.getD c.toNat [] else []

/-- The blocks of one column in stored order. -/
def colBlocks (s : MState) (c : ℤ) : List CBlock :=
  (colIds s c).filterMap (lookup s)

/-- Column.getBlockAt (src/src/systems/Column.ts): the first block of the
column within the tolerance of y. -/
def getBlockAt (s : MState) (c : ℤ) (y tol : ℚ) : Option CBlock :=
  (colBlocks s c).find? (fun b => decide (|b.y - y| ≤ tol))

/-- Column.getBlocksAtRest: the column's blocks with zero velocity. -/
def getBlocksAtRest (s : MState) (c : ℤ) : List CBlock :=
  (colBlocks s c).filter (fun b => decide (b.velocityY = 0))

/-- Column.getBlockAbove: among the column's blocks strictly above y, the
one closest to y (the JavaScript reduce keeps the earlier block on equal
heights). -/
def getBlockAbove (s : MState) (c : ℤ) (y : ℚ) : Option CBlock :=
  match (colBlocks s c).filter (fun b => decide (b.y < y)) with
  | [] => none
  | b0 :: rest => some (rest.foldl (fun m x => if m.y < x.y then x else m) b0)

/-- ColumnManager.getRow (src/src/systems/ColumnManager.ts): the nine cells
of one row, each found by getBlockAt at the row center with the 40 percent
tolerance; out-of-range rows give the empty list. -/
def getRow (s : MState) (row : ℤ) : List (Option CBlock) :=
  if row < 0 ∨ (ROWS : ℤ) ≤ row then []
  else
    let y := GRID_OFFSET_Y + row * ROW_HEIGHT + ROW_HEIGHT / 2
    (List.range COLUMNS).map (fun c => getBlockAt s c y (ROW_HEIGHT * (2/5)))

/-- The loop of ColumnManager.getBlockGroup: walk the live groups in order
and return the first holding the block. -/
def findGroupIdx (i : ℕ) : ℕ → List MGroup → Option ℕ
  | _, [] => none
  | k, g :: rest => if i ∈ g.ids then some k else findGroupIdx i (k + 1) rest

/-- ColumnManager.getBlockGroup: the index of the first live group holding
the block, null when free. -/
def getBlockGroup (s : MState) (i : ℕ) : Option ℕ :=
  findGroupIdx i 0 s.groups

/-- Closing a run of the grid scans: a finished consecutive id sequence of
length ≥ 3 joins the matched Set. -/
def flushIds (matched : List ℕ) (consecutive : List ℕ) : List ℕ :=
  if 3 ≤ consecutive.length then addMatched matched consecutive else matched

/-- One cell of the horizontal grid scan (detectHorizontalMatches in
src/src/systems/MatchDetector.ts): a run continues only on equal color and
identical group membership; an empty cell or a grey block flushes and
resets (the reset state none stands for currentColor = null with
currentGroup = undefined). -/
def hScanStep (s : MState) (st : Option (BlockColor × Option ℕ) × List ℕ × List ℕ)
    (cell : Option CBlock) : Option (BlockColor × Option ℕ) × List ℕ × List ℕ :=
  match cell with
  | none => (none, [], flushIds st.2.2 st.2.1)
  | some b =>
    if b.isGrey then (none, [], flushIds st.2.2 st.2.1)
    else
      let bg := getBlockGroup s b.id
      match st.1 with
      | some (c, g) =>
        if b.color = c ∧ bg = g then (st.1, st.2.1 ++ [b.id], st.2.2)
        else (some (b.color, bg), [b.id], flushIds st.2.2 st.2.1)
      | none => (some (b.color, bg), [b.id], flushIds st.2.2 st.2.1)

/-- One block of the vertical grid scan (detectVerticalMatches): a run
continues on equal color, identical group membership, and a spacing within
one pixel of a cell height of the previous block. -/
def vScanStep (s : MState) (st : Option (BlockColor × Option ℕ) × List CBlock × List ℕ)
    (b : CBlock) : Option (BlockColor × Option ℕ) × List CBlock × List ℕ :=
  if b.isGrey then (none, [], flushRun st.2.2 st.2.1)
  else
    let bg := getBlockGroup s b.id
    match st.1 with
    | some (c, g) =>
      if b.color = c ∧ bg = g ∧ 0 < st.2.1.length then
        match st.2.1.getLast? with
        | some prev =>
          if |b.y - prev.y - ROW_HEIGHT| ≤ 1 then (st.1, st.2.1 ++ [b], st.2.2)
          else (some (b.color, bg), [b], flushRun st.2.2 st.2.1)
        | none => (some (b.color, bg), [b], flushRun st.2.2 st.2.1)
      else (some (b.color, bg), [b], flushRun st.2.2 st.2.1)
    | none => (some (b.color, bg), [b], flushRun st.2.2 st.2.1)

/-- MatchDetector.detectHorizontalMatches: scan the twelve rows left to
right. -/
def detectHorizontalMatches (s : MState) (matched : List ℕ) : List ℕ :=
  (List.range ROWS).foldl (fun m (row : ℕ) =>
    let r := (getRow s row).foldl (hScanStep s) (none, [], m)
    flushIds r.2.2 r.2.1) matched

/-- MatchDetector.detectVerticalMatches: scan the at-rest blocks of each of
the nine columns top to bottom, skipping columns holding fewer than three. -/
def detectVerticalMatches (s : MState) (matched : List ℕ) : List ℕ :=
  (List.range COLUMNS).foldl (fun m (c : ℕ) =>
    let columnBlocks := getBlocksAtRest s c
    if columnBlocks.length < 3 then m
    else
      let r := columnBlocks.foldl (vScanStep s) (none, [], m)
      flushRun r.2.2 r.2.1) matched

/-- MatchDetector.detectMatches: the union of the horizontal and vertical
grid runs, in Set insertion order. -/
def detectMatches (s : MState) : List ℕ :=
  detectVerticalMatches s (detectHorizontalMatches s [])

/-- The worklist loop of MatchDetector.getConnectedBlocks: pop from the end
of the stack, look one cell up in the popped block's column, and absorb a
touching block not yet collected.  The fuel bounds the loop (each iteration
pops one entry and pushes at most one newly collected block, so
matched.length + s.blocks.length suffices). -/
def getConnectedAux (s : MState) : ℕ → List ℕ → List ℕ → List ℕ
  | 0, connected, _ => connected
  | _, connected, [] => connected
  | fuel + 1, connected, i :: rest2 =>
    let toProcess := i :: rest2
    let cur := toProcess.getLast!
    let rest := toProcess.dropLast
    match lookup s cur with
    | none => getConnectedAux s fuel connected rest
    | some curB =>
      match getBlockAbove s curB.column curB.y with
      | none => getConnectedAux s fuel connected rest
      | some ab =>
        if ab.id ∈ connected then getConnectedAux s fuel connected rest
        else if |curB.y - ab.y - ROW_HEIGHT| ≤ 1 then
          getConnectedAux s fuel (connected ++ [ab.id]) (rest ++ [ab.id])
        else getConnectedAux s fuel connected rest

/-- MatchDetector.getConnectedBlocks (src/src/systems/MatchDetector.ts):
the matched blocks plus everything physically touching above them via the
upward flood fill. -/
def getConnectedBlocks (s : MState) (matched : List ℕ) : List ℕ :=
  getConnectedAux s (matched.length + s.blocks.length) matched matched

/-- The greying pass of checkAndProcessMatches: every matched block turns
grey (the flame sprite is rendering-only). -/
def greyAll (s : MState) (ids : List ℕ) : MState :=
  { s with blocks := s.blocks.map (fun (b : CBlock) =>
      if b.id ∈ ids then { b with color := BlockColor.grey } else b) }

/-- MatchDetector.findExistingGroup (lines 260-268): the first matched
block already belonging to a live group decides. -/
def findExistingGroup (s : MState) (ids : List ℕ) : Option ℕ :=
  ids.findSome? (fun i => getBlockGroup s i)

/-- Replace the element at one position of a list. -/
def modifyIdx {α : Type} : List α → ℕ → (α → α) → List α
  | [], _, _ => []
  | x :: xs, 0, f => f x :: xs
  | x :: xs, n + 1, f => x :: modifyIdx xs n f

/-- BlockGroup.addVelocity acting through the store (force stacking on an
existing group): the group record gains the velocity and every member block
is synced to the new value. -/
def addVelocityToGroup (s : MState) (gi : ℕ) (dv : ℚ) : MState :=
  match s.groups.get? gi with
  | none => s
  | some g =>
    let v := g.velocityY + dv
    { s with
      groups := modifyIdx s.groups gi (fun gr => { gr with velocityY := v }),
      blocks := s.blocks.map (fun (b : CBlock) =>
        if b.id ∈ g.ids then { b with velocityY := v } else b) }

/-- ColumnManager.removeBlockFromColumn: drop the id from its column
(splice removes the first occurrence); invalid columns are a no-op. -/
def removeBlockFromColumn (s : MState) (i : ℕ) : MState :=
  match lookup s i with
  | none => s
  | some b =>
    if isValidColumn b.column then
      { s with cols := modifyIdx s.cols b.column.toNat (fun ids => ids.erase i) }
    else s

/-- The new-group branch of checkAndProcessMatches: every connected block
leaves its column if grid-resident, launches with the tier velocity of
Block.launch for the matched size, and the blocks form one new group whose
velocity the BlockGroup constructor reads from the first member. -/
def createNewGroup (s : MState) (connected : List ℕ) (msize : ℕ) : MState :=
  let s1 := connected.foldl (fun acc i =>
    match lookup acc i with
    | none => acc
    | some b =>
      let acc1 := if b.isInGrid then removeBlockFromColumn acc i else acc
      { acc1 with blocks := acc1.blocks.map (fun (x : CBlock) =>
          if x.id = i then { x with velocityY := Block.launchVelocity msize, isInGrid := false }
          else x) }) s
  let gv : ℚ :=
    match connected with
    | [] => 0
    | i :: _ =>
      match lookup s1 i with
      | some b => b.velocityY
      | none => 0
  { s1 with groups := s1.groups ++ [⟨connected, gv, 0⟩] }

/-- MatchDetector.checkAndProcessMatches (src/src/systems/MatchDetector.ts,
lines 209-255): detect grid matches; grey them; flood-fill the launch set;
if some matched block already sits in a live group, add the base launch
velocity for the matched size to that group (no new group, no boost-count
change); otherwise launch the whole connected set as one new group.
Returns the matched count for scoring. -/
def checkAndProcessMatches (s : MState) : MState × ℕ :=
  let matched := detectMatches s
  if matched.isEmpty then (s, 0)
  else
    let s1 := greyAll s matched
    let connected := getConnectedBlocks s1 matched
    match findExistingGroup s1 matched with
    | some gi => (addVelocityToGroup s1 gi (getLaunchVelocity matched.length false 0), matched.length)
    | none => (createNewGroup s1 connected matched.length, matched.length)

theorem modifyIdx_length {α : Type} (l : List α) (n : ℕ) (f : α → α) :
    (modifyIdx l n f).length = l.length := by
  induction l generalizing n with
  | nil => rfl
  | cons x xs ih => cases n <;> simp [modifyIdx, ih]

theorem modifyIdx_get_self {α : Type} (l : List α) (n : ℕ) (f : α → α) (a : α)
    (h : l.get? n = some a) : (modifyIdx l n f).get? n = some (f a) := by
  induction l generalizing n with
  | nil => simp at h
  | cons x xs ih =>
    cases n with
    | zero =>
      simp only [List.get?_cons_zero, Option.some.injEq] at h
      simp [modifyIdx, h]
    | succ m =>
      simp only [List.get?_cons_succ] at h
      simpa [modifyIdx] using ih m h

theorem modifyIdx_get_ne {α : Type} (l : List α) (n : ℕ) (f : α → α) (j : ℕ)
    (hj : j ≠ n) : (modifyIdx l n f).get? j = l.get? j := by
  induction l generalizing n j with
  | nil => rfl
  | cons x xs ih =>
    cases n with
    | zero =>
      cases j with
      | zero => exact absurd rfl hj
      | succ m => simp [modifyIdx]
    | succ m =>
      cases j with
      | zero => simp [modifyIdx]
      | succ k => simpa [modifyIdx] using ih m k (by omega)

/-- C2, amended: when a matched grid unit already belongs to a live group,
checkAndProcessMatches creates no new group and adds launchVelocity of the
match size, -300 · matchSize, to that group's stored velocity — but,
against the claim, its boostCount is NOT incremented (only the in-group
path checkMatchesInGroup increments the boost count), and the membership
test covers only the matched blocks rather than the whole flood-filled
launch set. -/
theorem c2_forceStacking_amended (s : MState) (gi : ℕ) (g : MGroup)
    (hne : ¬ (detectMatches s).isEmpty = true)
    (hfind : findExistingGroup (greyAll s (detectMatches s)) (detectMatches s) = some gi)
    (hg : s.groups.get? gi = some g) :
    (checkAndProcessMatches s).1.groups.length = s.groups.length ∧
    (checkAndProcessMatches s).1.groups.get? gi =
      some { g with velocityY := g.velocityY + ((detectMatches s).length : ℚ) * (-300) } ∧
    (∀ j, j ≠ gi → (checkAndProcessMatches s).1.groups.get? j = s.groups.get? j) ∧
    (checkAndProcessMatches s).2 = (detectMatches s).length := by
  unfold checkAndProcessMatches
  dsimp only
  rw [if_neg hne, hfind]
  unfold addVelocityToGroup
  dsimp only
  have hgg : (greyAll s (detectMatches s)).groups = s.groups := rfl
  rw [hgg, hg]
  dsimp only
  refine ⟨?_, ?_, ?_, rfl⟩
  · exact modifyIdx_length s.groups gi _
  · rw [modifyIdx_get_self s.groups gi _ g hg]
    simp [getLaunchVelocity, mul_comm]
  · intro j hj
    exact modifyIdx_get_ne s.groups gi _ j hj

/-- A board with a horizontal three-match of red units that are at the same
time members of one live group (a configuration the save-game loader can
produce: group members saved at rest re-enter their column stores while the
group is reconstructed around them). -/
def c2state : MState :=
  ⟨[⟨1, 0, 5, 470, .red, 0, true⟩, ⟨2, 1, 5, 470, .red, 0, true⟩,
    ⟨3, 2, 5, 470, .red, 0, true⟩],
   [[1], [2], [3], [], [], [], [], [], []],
   [⟨[1, 2, 3], 0, 0⟩]⟩

set_option maxHeartbeats 3000000 in
theorem c2row_other :
    ∀ r ∈ ([0, 1, 2, 3, 4, 6, 7, 8, 9, 10, 11] : List ℕ),
      getRow c2state (r : ℤ) =
        [none, none, none, none, none, none, none, none, none] := by
  intro r hr
  simp only [List.mem_cons, List.not_mem_nil, or_false] at hr
  rcases hr with rfl | rfl | rfl | rfl | rfl | rfl | rfl | rfl | rfl | rfl | rfl <;>
    (simp [getRow, getBlockAt, colBlocks, colIds, lookup, c2state, GRID_OFFSET_Y,
      ROW_HEIGHT, COLUMNS, ROWS, List.range_succ, abs_le] <;> norm_num)

set_option maxHeartbeats 1000000 in
theorem c2row5 :
    getRow c2state ((5 : ℕ) : ℤ) =
      [some ⟨1, 0, 5, 470, .red, 0, true⟩, some ⟨2, 1, 5, 470, .red, 0, true⟩,
        some ⟨3, 2, 5, 470, .red, 0, true⟩, none, none, none, none, none, none] := by
  simp [getRow, getBlockAt, colBlocks, colIds, lookup, c2state, GRID_OFFSET_Y,
    ROW_HEIGHT, COLUMNS, ROWS, List.range_succ, abs_le] <;> norm_num

set_option maxHeartbeats 2000000 in
theorem c2_horiz : detectHorizontalMatches c2state [] = [1, 2, 3] := by
  unfold detectHorizontalMatches
  simp only [ROWS, List.range_succ, List.range_zero, List.foldl_append, List.foldl_cons,
    List.foldl_nil, List.nil_append]
  rw [c2row_other 0 (by simp), c2row_other 1 (by simp), c2row_other 2 (by simp),
    c2row_other 3 (by simp), c2row_other 4 (by simp), c2row5, c2row_other 6 (by simp),
    c2row_other 7 (by simp), c2row_other 8 (by simp), c2row_other 9 (by simp),
    c2row_other 10 (by simp), c2row_other 11 (by simp)]
  simp [hScanStep, flushIds, addMatched, getBlockGroup, findGroupIdx, CBlock.isGrey, c2state]

theorem c2_vert : detectVerticalMatches c2state [1, 2, 3] = [1, 2, 3] := by
  unfold detectVerticalMatches
  simp [COLUMNS, List.range_succ, getBlocksAtRest, colBlocks, colIds, lookup, c2state]

theorem c2_detect : detectMatches c2state = [1, 2, 3] := by
  unfold detectMatches
  rw [c2_horiz, c2_vert]

theorem c2_find : findExistingGroup (greyAll c2state [1, 2, 3]) [1, 2, 3] = some 0 := by
  simp [findExistingGroup, getBlockGroup, findGroupIdx, greyAll, c2state]

/-- C2, counterexample: on the board c2state the launch set of the detected
three-match meets the live group 0, and checkAndProcessMatches leaves that
group's boostCount at 0 — the claim demands an increment to 1. -/
theorem c2_forceStacking_counterexample :
    findExistingGroup (greyAll c2state (detectMatches c2state)) (detectMatches c2state) = some 0 ∧
    (checkAndProcessMatches c2state).1.groups.map (fun g => g.boostCount) = [0] ∧
    ¬ ((checkAndProcessMatches c2state).1.groups.map (fun g => g.boostCount) = [0 + 1]) := by
  have heval : (checkAndProcessMatches c2state).1.groups = [⟨[1, 2, 3], -900, 0⟩] := by
    unfold checkAndProcessMatches
    dsimp only
    rw [c2_detect]
    rw [show (([1, 2, 3] : List ℕ).isEmpty) = false from rfl]
    rw [c2_find]
    simp [addVelocityToGroup, modifyIdx, greyAll, c2state, getLaunchVelocity]
    norm_num
  refine ⟨by rw [c2_detect]; exact c2_find, ?_, ?_⟩
  · rw [heval]; rfl
  · rw [heval]; simp

theorem c2_forceStacking_amended_witness :
    (checkAndProcessMatches c2state).1.groups.length = c2state.groups.length ∧
    (checkAndProcessMatches c2state).1.groups.get? 0 =
      some { (⟨[1, 2, 3], 0, 0⟩ : MGroup) with
        velocityY := (⟨[1, 2, 3], 0, 0⟩ : MGroup).velocityY +
          ((detectMatches c2state).length : ℚ) * (-300) } ∧
    (∀ j, j ≠ 0 → (checkAndProcessMatches c2state).1.groups.get? j = c2state.groups.get? j) ∧
    (checkAndProcessMatches c2state).2 = (detectMatches c2state).length :=
  c2_forceStacking_amended c2state 0 ⟨[1, 2, 3], 0, 0⟩
    (by rw [c2_detect]; simp)
    (by rw [c2_detect]; exact c2_find)
    (by simp [c2state])

/-- The end-of-tick orphan safety net of LevelScene.update
(src/src/scenes/GameScene.ts, lines 459-467): every block with zero
velocity that is neither grid-resident nor a member of a live group is
forced back into free fall at 300 px/s. -/
def safetyNet (s : MState) : MState :=
  { s with blocks := s.blocks.map (fun (b : CBlock) =>
      if b.velocityY = 0 ∧ b.isInGrid = false ∧ getBlockGroup s b.id = none
      then { b with velocityY := 300 } else b) }

/-- The group-collision inner loop of LevelScene.update
(src/src/scenes/GameScene.ts, lines 264-280) run for the group at index gi:
every other live group not yet marked for removal that collides with it is
merged in via mergeWith, and the absorbed group is only MARKED for removal
(groupsToRemove) — it stays in the manager's live list until the deferred
removal later in the same tick. -/
def mergeScan (groups : List BlockGroup) (gi : ℕ) : List BlockGroup × List ℕ :=
  (List.range groups.length).foldl
    (fun (acc : List BlockGroup × List ℕ) j =>
      if j = gi ∨ j ∈ acc.2 then acc
      else
        match acc.1.get? gi, acc.1.get? j with
        | some a, some b =>
          if checkGroupCollision a b then
            (modifyIdx acc.1 gi (fun g => g.mergeWith b), acc.2 ++ [j])
          else acc
        | _, _ => acc)
    (groups, [])

/-- Two one-member groups moving up the same column within one cell height
of each other. -/
def c1groups : List BlockGroup :=
  [⟨[⟨1, 0, 3, 100, .red, -100, false⟩], -100, 0, true, 0⟩,
   ⟨[⟨2, 0, 4, 150, .blue, -50, false⟩], -50, 0, true, 0⟩]

/-- C1, counterexample: directly after the merge step of the tick — a point
in time within the tick — the unit with id 2 is a member of two groups of
the manager's live list at once (the absorbing group and the absorbed
group, which is only marked for deferred removal), so a unit is not always
in at most one membership state. -/
theorem c1_membership_counterexample :
    (((mergeScan c1groups 0).1.filter (fun g => g.blocks.any (fun b => b.id = 2))).length = 2) ∧
    (mergeScan c1groups 0).2 = [1] := by
  have hscan : mergeScan c1groups 0 =
      ([⟨[⟨1, 0, 3, 100, .red, -725, false⟩, ⟨2, 0, 4, 180, .blue, -725, false⟩], -725, 1, true, 0⟩,
        ⟨[⟨2, 0, 4, 150, .blue, -50, false⟩], -50, 0, true, 0⟩], [1]) := by
    simp only [mergeScan, c1groups, List.length_cons, List.length_singleton, List.range_succ,
      List.range_zero, List.nil_append, List.foldl_cons, List.foldl_nil, List.foldl_append]
    norm_num [checkGroupCollision, ROW_HEIGHT, abs_le, modifyIdx]
    simp [BlockGroup.mergeWith, BlockGroup.addBlock, BlockGroup.addBlockBlocks,
      BlockGroup.setVelocity, BlockGroup.realignBlocks, jsRound, abs_le]
    norm_num [MERGE_VELOCITY_BONUS, ROW_HEIGHT]
  rw [hscan]
  constructor
  · simp
  · rfl

/-- C1, amended: the tri-state membership claim fails as stated at points
inside a tick (see the counterexample: during merging a unit is briefly in
two live groups, and the orphan safety net exists precisely because a unit
can transiently be in no state), but at the end of every tick, after the
safety net runs, no unit is left in zero states while at rest: every block
is moving (free-falling), grid-resident, or a member of a live group. -/
theorem c1_membership_amended (s : MState) (b : CBlock)
    (hb : b ∈ (safetyNet s).blocks) :
    b.velocityY ≠ 0 ∨ b.isInGrid = true ∨ (getBlockGroup (safetyNet s) b.id).isSome = true := by
  unfold safetyNet at hb
  simp only [List.mem_map] at hb
  obtain ⟨a, ha, rfl⟩ := hb
  by_cases hc : a.velocityY = 0 ∧ a.isInGrid = false ∧ getBlockGroup s a.id = none
  · rw [if_pos hc]
    left
    norm_num
  · rw [if_neg hc]
    push_neg at hc
    by_cases h1 : a.velocityY = 0
    · by_cases h2 : a.isInGrid = false
      · right
        right
        have h3 := hc h1 h2
        have hgg : getBlockGroup (safetyNet s) a.id = getBlockGroup s a.id := rfl
        rw [hgg]
        exact Option.isSome_iff_ne_none.mpr h3
      · right
        left
        revert h2
        cases a.isInGrid <;> simp
    · left
      exact h1

/-- A board holding a single orphaned unit: at rest, not grid-resident, in
no group. -/
def c1state : MState :=
  ⟨[⟨5, 0, 0, 100, .red, 0, false⟩], [[], [], [], [], [], [], [], [], []], []⟩

theorem c1_membership_amended_witness :
    (⟨5, 0, 0, 100, .red, 300, false⟩ : CBlock).velocityY ≠ 0 ∨
    (⟨5, 0, 0, 100, .red, 300, false⟩ : CBlock).isInGrid = true ∨
    (getBlockGroup (safetyNet c1state) (⟨5, 0, 0, 100, .red, 300, false⟩ : CBlock).id).isSome = true :=
  c1_membership_amended c1state ⟨5, 0, 0, 100, .red, 300, false⟩
    (by simp [c1state, safetyNet, getBlockGroup, findGroupIdx])

/-- The leftward loop of ColorAssigner.wouldCreateHorizontalMatch: count
consecutive same-colored non-grey cells from index i moving left; the loop
runs at most COLUMNS times (the fuel). -/
def countLeft (rowBlocks : List (Option CBlock)) (c : BlockColor) : ℤ → ℕ → ℕ
  | _, 0 => 0
  | i, fuel + 1 =>
    if i < 0 then 0
    else
      match rowBlocks.getD i.toNat none with
      | some b =>
        if b.color = c ∧ b.isGrey = false then 1 + countLeft rowBlocks c (i - 1) fuel else 0
      | none => 0

/-- The rightward loop of ColorAssigner.wouldCreateHorizontalMatch. -/
def countRight (rowBlocks : List (Option CBlock)) (c : BlockColor) : ℤ → ℕ → ℕ
  | _, 0 => 0
  | i, fuel + 1 =>
    if (COLUMNS : ℤ) ≤ i then 0
    else
      match (if 0 ≤ i then rowBlocks.getD i.toNat none else none) with
      | some b =>
        if b.color = c ∧ b.isGrey = false then 1 + countRight rowBlocks c (i + 1) fuel else 0
      | none => 0

/-- ColorAssigner.wouldCreateHorizontalMatch (src/src/systems/
ColorAssigner.ts): would the color at (column, row) extend to a horizontal
run of three or more through the row's grid-resident neighbors. -/
def wouldCreateHorizontalMatch (s : MState) (column row : ℤ) (c : BlockColor) : Bool :=
  let rowBlocks := getRow s row
  let leftCount := countLeft rowBlocks c (column - 1) COLUMNS
  let rightCount := countRight rowBlocks c (column + 1) COLUMNS
  decide (3 ≤ leftCount + 1 + rightCount)

/-- The above-count loop of ColorAssigner.wouldCreateVerticalMatch, over
the at-rest blocks sorted DESCENDING by row: blocks at or below the target
row are skipped, the first considered block above either continues the
count at the expected consecutive row or breaks the loop. -/
def vertAbove (c : BlockColor) (row : ℤ) : List CBlock → ℕ → ℕ
  | [], n => n
  | b :: rest, n =>
    if b.row < row then
      if b.color = c ∧ b.isGrey = false then
        if b.row = row - n - 1 then vertAbove c row rest (n + 1) else n
      else n
    else vertAbove c row rest n

/-- The below-count loop of ColorAssigner.wouldCreateVerticalMatch, over
the SAME descending list: the first block below the target row that the
scan meets is the deepest one, so the expected-row check
(row + count + 1) breaks immediately unless that block is exactly one row
below the target. -/
def vertBelow (c : BlockColor) (row : ℤ) : List CBlock → ℕ → ℕ
  | [], n => n
  | b :: rest, n =>
    if row < b.row then
      if b.color = c ∧ b.isGrey = false then
        if b.row = row + n + 1 then vertBelow c row rest (n + 1) else n
      else n
    else vertBelow c row rest n

/-- ColorAssigner.wouldCreateVerticalMatch (src/src/systems/
ColorAssigner.ts, lines 75-124). -/
def wouldCreateVerticalMatch (s : MState) (column row : ℤ) (c : BlockColor) : Bool :=
  if isValidColumn column then
    let sorted := sortCBlocksByRowDesc (getBlocksAtRest s column)
    let aboveCount := vertAbove c row sorted 0
    let belowCount := vertBelow c row sorted 0
    decide (3 ≤ aboveCount + 1 + belowCount)
  else false

/-- ColorAssigner.wouldCreateMatch. -/
def wouldCreateMatch (s : MState) (column row : ℤ) (c : BlockColor) : Bool :=
  wouldCreateHorizontalMatch s column row c || wouldCreateVerticalMatch s column row c

/-- ColorAssigner.getSafeColors (lines 132-142): the playable colors whose
assignment the match check clears. -/
def getSafeColors (s : MState) (column row : ℤ) : List BlockColor :=
  PLAYABLE_COLORS.filter (fun c => !(wouldCreateMatch s column row c))

/-- The per-block choice of assignColorsToBlocks: a random pick from the
safe colors when any exist, otherwise Block.getRandomColor over all five
playable colors; the draw floor(random()·length) is abstracted as an
arbitrary natural taken modulo the length. -/
def chosenColor (s : MState) (column row : ℤ) (r : ℕ) : BlockColor :=
  let safe := getSafeColors s column row
  if safe.isEmpty then PLAYABLE_COLORS.getD (r % PLAYABLE_COLORS.length) .red
  else safe.getD (r % safe.length) .red

/-- Block.setColor acting through the store (the grey-recovery timer
bookkeeping lives in the host scheduler, outside this state). -/
def setColor (s : MState) (i : ℕ) (c : BlockColor) : MState :=
  { s with blocks := s.blocks.map (fun (b : CBlock) =>
      if b.id = i then { b with color := c } else b) }

/-- ColorAssigner.assignColorsToBlocks (src/src/systems/ColorAssigner.ts,
lines 149-170): recovered blocks are processed one at a time in arrival
order, each assignment visible to the safety evaluation of the next; rnd
supplies the random draw of each step. -/
def assignColorsToBlocks (s : MState) (ids : List ℕ) (rnd : ℕ → ℕ) (k : ℕ) : MState :=
  match ids with
  | [] => s
  | i :: rest =>
    match lookup s i with
    | none => assignColorsToBlocks s rest rnd (k + 1)
    | some b =>
      assignColorsToBlocks (setColor s i (chosenColor s b.column b.row (rnd k))) rest rnd (k + 1)

/-- A column where a grey unit recovering at (4, 8) sits directly above two
red at-rest units at rows 9 and 10 (y = 790, 870): assigning red at row 8
completes a vertical three-run. -/
def c6state : MState :=
  ⟨[⟨1, 4, 8, 710, .grey, 0, true⟩, ⟨2, 4, 9, 790, .red, 0, true⟩,
    ⟨3, 4, 10, 870, .red, 0, true⟩],
   [[], [], [], [], [1, 2, 3], [], [], [], []],
   []⟩

/-- The board c6state after the assigner picks red for the recovering
unit. -/
def c6red : MState :=
  ⟨[⟨1, 4, 8, 710, .red, 0, true⟩, ⟨2, 4, 9, 790, .red, 0, true⟩,
    ⟨3, 4, 10, 870, .red, 0, true⟩],
   [[], [], [], [], [1, 2, 3], [], [], [], []],
   []⟩

theorem c6_setColor : setColor c6state 1 .red = c6red := by
  simp [setColor, c6state, c6red]

set_option maxHeartbeats 1000000 in
theorem c6_row8 :
    getRow c6state ((8 : ℕ) : ℤ) =
      [none, none, none, none, some ⟨1, 4, 8, 710, .grey, 0, true⟩, none, none, none, none] := by
  simp [getRow, getBlockAt, colBlocks, colIds, lookup, c6state, GRID_OFFSET_Y,
    ROW_HEIGHT, COLUMNS, ROWS, List.range_succ, abs_le] <;> norm_num

theorem c6_rest : getBlocksAtRest c6state 4 =
    [⟨1, 4, 8, 710, .grey, 0, true⟩, ⟨2, 4, 9, 790, .red, 0, true⟩,
      ⟨3, 4, 10, 870, .red, 0, true⟩] := by
  simp [getBlocksAtRest, colBlocks, colIds, lookup, c6state]

theorem c6_horiz_safe : ∀ c : BlockColor, wouldCreateHorizontalMatch c6state 4 8 c = false := by
  intro c
  unfold wouldCreateHorizontalMatch
  rw [show ((8 : ℤ)) = ((8 : ℕ) : ℤ) from rfl, c6_row8]
  simp [countLeft, countRight, COLUMNS]

theorem c6_vert_safe : ∀ c : BlockColor, wouldCreateVerticalMatch c6state 4 8 c = false := by
  intro c
  unfold wouldCreateVerticalMatch
  rw [if_pos (by decide : isValidColumn 4 = true)]
  rw [c6_rest]
  cases c <;>
    simp [sortCBlocksByRowDesc, insertByRowDesc, vertAbove, vertBelow, CBlock.isGrey]

theorem c6_safe_all : getSafeColors c6state 4 8 = PLAYABLE_COLORS := by
  have h : ∀ c : BlockColor, wouldCreateMatch c6state 4 8 c = false := by
    intro c
    unfold wouldCreateMatch
    rw [c6_horiz_safe c, c6_vert_safe c]
    rfl
  simp [getSafeColors, h, List.filter, PLAYABLE_COLORS]

set_option maxHeartbeats 3000000 in
theorem c6red_row_other :
    ∀ r ∈ ([0, 1, 2, 3, 4, 5, 6, 7, 11] : List ℕ),
      getRow c6red (r : ℤ) =
        [none, none, none, none, none, none, none, none, none] := by
  intro r hr
  simp only [List.mem_cons, List.not_mem_nil, or_false] at hr
  rcases hr with rfl | rfl | rfl | rfl | rfl | rfl | rfl | rfl | rfl <;>
    (simp [getRow, getBlockAt, colBlocks, colIds, lookup, c6red, GRID_OFFSET_Y,
      ROW_HEIGHT, COLUMNS, ROWS, List.range_succ, abs_le] <;> norm_num)

set_option maxHeartbeats 3000000 in
theorem c6red_row_mid :
    getRow c6red ((8 : ℕ) : ℤ) =
      [none, none, none, none, some ⟨1, 4, 8, 710, .red, 0, true⟩, none, none, none, none] ∧
    getRow c6red ((9 : ℕ) : ℤ) =
      [none, none, none, none, some ⟨2, 4, 9, 790, .red, 0, true⟩, none, none, none, none] ∧
    getRow c6red ((10 : ℕ) : ℤ) =
      [none, none, none, none, some ⟨3, 4, 10, 870, .red, 0, true⟩, none, none, none, none] := by
  refine ⟨?_, ?_, ?_⟩ <;>
    (simp [getRow, getBlockAt, colBlocks, colIds, lookup, c6red, GRID_OFFSET_Y,
      ROW_HEIGHT, COLUMNS, ROWS, List.range_succ, abs_le] <;> norm_num)

set_option maxHeartbeats 2000000 in
theorem c6red_horiz : detectHorizontalMatches c6red [] = [] := by
  unfold detectHorizontalMatches
  simp only [ROWS, List.range_succ, List.range_zero, List.foldl_append, List.foldl_cons,
    List.foldl_nil, List.nil_append]
  rw [c6red_row_other 0 (by simp), c6red_row_other 1 (by simp), c6red_row_other 2 (by simp),
    c6red_row_other 3 (by simp), c6red_row_other 4 (by simp), c6red_row_other 5 (by simp),
    c6red_row_other 6 (by simp), c6red_row_other 7 (by simp), c6red_row_mid.1,
    c6red_row_mid.2.1, c6red_row_mid.2.2, c6red_row_other 11 (by simp)]
  simp [hScanStep, flushIds, addMatched, getBlockGroup, findGroupIdx, CBlock.isGrey, c6red]

set_option maxHeartbeats 1000000 in
theorem c6red_vert : detectVerticalMatches c6red [] = [1, 2, 3] := by
  unfold detectVerticalMatches
  simp [COLUMNS, List.range_succ, getBlocksAtRest, colBlocks, colIds, lookup, c6red,
    vScanStep, flushRun, addMatched, idsOf, getBlockGroup, findGroupIdx, CBlock.isGrey,
    ROW_HEIGHT, abs_le] <;> norm_num

/-- C6: the claim states the code's own intent — a color that completes a
run of three is never chosen while any safe color exists — but the
below-count of wouldCreateVerticalMatch walks the column in descending row
order, so it breaks on the deepest block below the target unless that block
sits exactly one row below.  On c6state (grey unit at (4, 8) above red
units at rows 9 and 10) red is reported safe, stays in getSafeColors, and
the draw 0 assigns it — after which the repo's own grid detector
immediately reports the vertical three-match {1, 2, 3}. -/
theorem c6_safeColor_bug :
    wouldCreateMatch c6state 4 8 .red = false ∧
    .red ∈ getSafeColors c6state 4 8 ∧
    chosenColor c6state 4 8 0 = .red ∧
    detectMatches (setColor c6state 1 .red) = [1, 2, 3] := by
  refine ⟨?_, ?_, ?_, ?_⟩
  · unfold wouldCreateMatch
    rw [c6_horiz_safe .red, c6_vert_safe .red]
    rfl
  · rw [c6_safe_all]
    simp [PLAYABLE_COLORS]
  · unfold chosenColor
    rw [c6_safe_all]
    rfl
  · rw [c6_setColor]
    unfold detectMatches
    rw [c6red_horiz, c6red_vert]

/-!
Spawning through ColumnManager.addBlock and ColumnManager.addBlockToColumn
(src/src/systems/ColumnManager.ts), with the column-side insertion of
Column.addBlock (src/src/systems/Column.ts, lines 104 to 120).
-/

/-- Allocation of a fresh object: a new id strictly larger than every id
stored in the master list (ids embed JavaScript object identity). -/
def nextId (s : MState) : ℕ :=
  (s.blocks.map CBlock.id).foldl max 0 + 1

/-- The sort key of Column.sortBlocks: the y of the block an id refers to
in the given master list (the column array holds object references and the
comparator (a, b) => a.y - b.y reads their y fields). -/
def keyY (blocks : List CBlock) (i : ℕ) : ℚ :=
  ((blocks.find? (fun b => b.id = i)).map CBlock.y).getD 0

/-- Stable insertion of an id into a column list ascending by the y key. -/
def insertIdByY (blocks : List CBlock) (x : ℕ) : List ℕ → List ℕ
  | [] => [x]
  | j :: js => if keyY blocks x < keyY blocks j then x :: j :: js else j :: insertIdByY blocks x js

/-- Stable sort of a column id list ascending by the y key, Column.sortBlocks. -/
def sortIdsByY (blocks : List CBlock) : List ℕ → List ℕ
  | [] => []
  | j :: js => insertIdByY blocks j (sortIdsByY blocks js)

/-- The overlap nudge of Column.addBlock: if another resident block sits
within 10 percent of a cell of the incoming block's y, move the incoming
block one cell above it (block.setPosition(block.x, existing.y - 80)). -/
def nudgedBlock (s : MState) (c : ℤ) (b : CBlock) : CBlock :=
  match getBlockAt s c b.y (ROW_HEIGHT * (1/10)) with
  | some e => if e.id = b.id then b else { b with y := e.y - ROW_HEIGHT }
  | none => b

/-- The column-array push of Column.addBlock: append the id and re-sort by
y against the master list that already holds the (possibly nudged) block. -/
def colPush (blocks1 : List CBlock) (cols : List (List ℕ)) (c : ℤ) (i : ℕ) : List (List ℕ) :=
  if 0 ≤ c then modifyIdx cols c.toNat (fun l => sortIdsByY blocks1 (l ++ [i])) else cols

/-- ColumnManager.addBlock (src/src/systems/ColumnManager.ts, lines 187 to
212): build the block at (column, y), give it the initial velocity, and if
y is inside the grid band and the velocity is zero push it into
this.columns[column] — an expression that dereferences undefined and
throws (the .error case) when the column index is out of range, because
this path has no isValidColumn guard.  Otherwise the block is only pushed
to the master list, in motion and not in the grid. -/
def managerAddBlock (s : MState) (column : ℤ) (y : ℚ) (color : BlockColor) (velocity : ℚ) :
    Except Unit (MState × ℕ) :=
  let row : ℤ := ⌊(y - GRID_OFFSET_Y) / ROW_HEIGHT⌋
  let nid := nextId s
  let b : CBlock := ⟨nid, column, row, y, color, velocity, false⟩
  if (GRID_OFFSET_Y ≤ y ∧ y < GRID_OFFSET_Y + (ROWS : ℚ) * ROW_HEIGHT) ∧ velocity = 0 then
    if isValidColumn column then
      let b1 := nudgedBlock s column { b with isInGrid := true }
      let blocks1 := s.blocks ++ [b1]
      .ok ({ blocks := blocks1, cols := colPush blocks1 s.cols column b1.id,
             groups := s.groups }, nid)
    else .error ()
  else
    .ok ({ s with blocks := s.blocks ++ [b] }, nid)

/-- ColumnManager.addBlockToColumn (src/src/systems/ColumnManager.ts,
lines 162 to 170): validated entry of an existing block into its column —
an invalid column is rejected with a warning and nothing changes. -/
def addBlockToColumn (s : MState) (i : ℕ) : MState :=
  match lookup s i with
  | none => s
  | some b =>
      if isValidColumn b.column then
        let b1 := { nudgedBlock s b.column b with isInGrid := true }
        let blocks1 := s.blocks.map (fun x => if x.id = i then b1 else x)
        { blocks := blocks1, cols := colPush blocks1 s.cols b.column b.id,
          groups := s.groups }
      else s

/-- C7, counterexample: spawning at an out-of-range column is not a
non-throwing no-op.  On an empty board, addBlock(9, 70, red, 0) — in the
grid band, at rest, column 9 of nine columns 0 to 8 — reaches
this.columns[9].addBlock, which throws because this.columns[9] is
undefined; ColumnManager.addBlock validates nothing. -/
theorem c7_spawnNoop_counterexample :
    managerAddBlock ⟨[], List.replicate COLUMNS [], []⟩ 9 70 .red 0 = .error () := by
  unfold managerAddBlock
  rw [if_pos (by norm_num [GRID_OFFSET_Y, ROWS, ROW_HEIGHT])]
  rw [show isValidColumn 9 = false from by decide]
  rfl

/-- C7, amended: the claimed reject-and-log behaviour holds for
addBlockToColumn, whose isValidColumn guard makes an invalid column a
no-op, and for ColumnManager.addBlock only on the paths that never touch a
column: when the spawn is outside the grid band or moving, the call
returns normally and every column list is unchanged (the returned state
keeps s.cols); but a spawn at rest inside the grid band with an invalid
column throws. -/
theorem c7_spawnNoop_amended (s : MState) (c : ℤ) (y : ℚ) (color : BlockColor) (v : ℚ)
    (i : ℕ) (b : CBlock)
    (hc : isValidColumn c = false) (hl : lookup s i = some b) (hbc : b.column = c) :
    addBlockToColumn s i = s ∧
    ((GRID_OFFSET_Y ≤ y ∧ y < GRID_OFFSET_Y + (ROWS : ℚ) * ROW_HEIGHT) ∧ v = 0 →
      managerAddBlock s c y color v = .error ()) ∧
    (¬ ((GRID_OFFSET_Y ≤ y ∧ y < GRID_OFFSET_Y + (ROWS : ℚ) * ROW_HEIGHT) ∧ v = 0) →
      managerAddBlock s c y color v =
        .ok ({ s with blocks := s.blocks ++
          [⟨nextId s, c, ⌊(y - GRID_OFFSET_Y) / ROW_HEIGHT⌋, y, color, v, false⟩] },
          nextId s)) := by
  refine ⟨?_, ?_, ?_⟩
  · unfold addBlockToColumn
    rw [hl]
    simp [hbc, hc]
  · intro h
    unfold managerAddBlock
    rw [if_pos h, hc]
    rfl
  · intro h
    unfold managerAddBlock
    rw [if_neg h]

/-- A board with one free block already parked at the invalid column 9. -/
def c7state : MState :=
  ⟨[⟨1, 9, 0, 70, .red, 0, false⟩], List.replicate COLUMNS [], []⟩

theorem c7_spawnNoop_amended_witness :
    addBlockToColumn c7state 1 = c7state ∧
    ((GRID_OFFSET_Y ≤ (1000 : ℚ) ∧ (1000 : ℚ) < GRID_OFFSET_Y + (ROWS : ℚ) * ROW_HEIGHT) ∧
        (0 : ℚ) = 0 →
      managerAddBlock c7state 9 1000 .red 0 = .error ()) ∧
    (¬ ((GRID_OFFSET_Y ≤ (1000 : ℚ) ∧ (1000 : ℚ) < GRID_OFFSET_Y + (ROWS : ℚ) * ROW_HEIGHT) ∧
        (0 : ℚ) = 0) →
      managerAddBlock c7state 9 1000 .red 0 =
        .ok ({ c7state with blocks := c7state.blocks ++
          [⟨nextId c7state, 9, ⌊((1000 : ℚ) - GRID_OFFSET_Y) / ROW_HEIGHT⌋, 1000, .red, 0,
            false⟩] }, nextId c7state)) :=
  c7_spawnNoop_amended c7state 9 1000 .red 0 1 ⟨1, 9, 0, 70, .red, 0, false⟩
    (by decide) (by simp [lookup, c7state]) rfl

/-!
Save and load: GameStateManager.serialize / deserialize
(src/src/systems/GameStateManager.ts) and LevelScene.loadGameState
(src/src/scenes/GameScene.ts, lines 1408 to 1549).  deserialize only
unwraps the nested wrapper, so the board round trip is serialize followed
by loadGameState on the extracted SaveState.
-/

/-- SavedBlock (src/src/systems/GameStateManager.ts): column, rounded y,
color index, and the rounded velocity when non-zero (omitted otherwise;
the recovery-timer and original-match fields concern no simulation state
embedded here). -/
structure SavedBlock where
  c : ℤ
  y : ℤ
  co : ℕ
  v : Option ℤ
  deriving Repr, DecidableEq

/-- SavedGroup: member indices into the saved block array, rounded group
velocity, and the boost count when positive (omitted otherwise). -/
structure SavedGroup where
  bi : List ℕ
  v : ℤ
  bc : Option ℕ
  deriving Repr, DecidableEq

/-- The boardState part of a SaveState: the saved blocks and the saved
groups (an absent g field and an empty list load identically). -/
structure SaveState where
  b : List SavedBlock
  g : List SavedGroup
  deriving Repr, DecidableEq

/-- Color serialization of GameStateManager.serialize: 6 for grey, the
PLAYABLE_COLORS index otherwise, 0 when indexOf misses (dead fallback). -/
def colorIndex (c : BlockColor) : ℕ :=
  if c = BlockColor.grey then 6
  else
    let i := PLAYABLE_COLORS.findIdx (fun x => x = c)
    if i = PLAYABLE_COLORS.length then 0 else i

/-- One block of GameStateManager.serialize: Math.round on y, the color
index, and the rounded velocity only when the velocity is non-zero. -/
def serializeBlock (b : CBlock) : SavedBlock :=
  { c := b.column, y := jsRound b.y, co := colorIndex b.color,
    v := if b.velocityY = 0 then none else some (jsRound b.velocityY) }

/-- blockIndexMap.get: the index of the block with a given id in the
master list (object identity is the id). -/
def idxOfId (blocks : List CBlock) (i : ℕ) : Option ℕ :=
  blocks.findIdx? (fun b => b.id = i)

/-- Group serialization of GameStateManager.serialize: member indices
through the block index map, groups with no surviving index dropped, the
rounded group velocity, and the boost count only when positive. -/
def serializeGroups (blocks : List CBlock) : List MGroup → List SavedGroup
  | [] => []
  | g :: rest =>
      let bi := g.ids.filterMap (idxOfId blocks)
      if bi.isEmpty then serializeGroups blocks rest
      else { bi := bi, v := jsRound g.velocityY,
             bc := if 0 < g.boostCount then some g.boostCount else none } ::
           serializeGroups blocks rest

/-- GameStateManager.serialize restricted to the board data the round
trip is about. -/
def serialize (s : MState) : SaveState :=
  { b := s.blocks.map serializeBlock, g := serializeGroups s.blocks s.groups }

/-- Color deserialization of LevelScene.loadGameState: 6 back to grey,
else PLAYABLE_COLORS[co] with red for an out-of-range index. -/
def decodeColor (co : ℕ) : BlockColor :=
  if co = 6 then BlockColor.grey else PLAYABLE_COLORS.getD co BlockColor.red

/-- The board right after columnManager.clear() in loadGameState. -/
def clearedState : MState :=
  ⟨[], List.replicate COLUMNS [], []⟩

/-- The block-restoring loop of loadGameState: each saved block re-enters
through columnManager.addBlock with velocity savedBlock.v or 0; the loop
also records the created blocks in order for group rebuilding. -/
def loadBlocks : MState → List SavedBlock → Except Unit (MState × List ℕ)
  | s, [] => .ok (s, [])
  | s, sb :: rest =>
      match managerAddBlock s sb.c (sb.y : ℚ) (decodeColor sb.co) ((sb.v.getD 0 : ℤ) : ℚ) with
      | .error e => .error e
      | .ok (s1, nid) =>
          match loadBlocks s1 rest with
          | .error e => .error e
          | .ok (s2, ids) => .ok (s2, nid :: ids)

/-- The member resolution of one saved group: indices resolved against the
recreated block array, out-of-range indices skipped (the bounds guard of
the loop). -/
def resolvedIds (blockIds : List ℕ) (sg : SavedGroup) : List ℕ :=
  sg.bi.filterMap (fun idx => blockIds[idx]?)

/-- One saved group of the group-restoring loop: empty resolutions are
dropped; the new BlockGroup gets setVelocity(savedGroup.v), which also
rewrites every member's velocity, and the saved boost count or 0. -/
def loadGroup (s : MState) (blockIds : List ℕ) (sg : SavedGroup) : MState :=
  if (resolvedIds blockIds sg).isEmpty then s
  else
    { blocks := s.blocks.map (fun b =>
        if b.id ∈ resolvedIds blockIds sg then { b with velocityY := (sg.v : ℚ) } else b),
      cols := s.cols,
      groups := s.groups ++ [⟨resolvedIds blockIds sg, (sg.v : ℚ), sg.bc.getD 0⟩] }

/-- The group-restoring loop of loadGameState. -/
def loadGroups (s : MState) (blockIds : List ℕ) : List SavedGroup → MState
  | [] => s
  | sg :: rest => loadGroups (loadGroup s blockIds sg) blockIds rest

/-- loadGameState on an extracted SaveState: clear the board, re-add every
saved block (propagating the throw of ColumnManager.addBlock), then
rebuild the groups. -/
def loadGameState (st : SaveState) : Except Unit MState :=
  match loadBlocks clearedState st.b with
  | .error e => .error e
  | .ok (s1, ids) => .ok (loadGroups s1 ids st.g)

/-- The (column, rounded y, color) datum of one unit that the round-trip
claim compares. -/
def blockTuple (b : CBlock) : ℤ × ℤ × BlockColor :=
  (b.column, jsRound b.y, b.color)

/-- The board's unit tuples in master-list order. -/
def tuples (s : MState) : List (ℤ × ℤ × BlockColor) :=
  s.blocks.map blockTuple

/-- The group memberships as the lists of member tuples, group by group. -/
def memberTuples (s : MState) : List (List (ℤ × ℤ × BlockColor)) :=
  s.groups.map (fun g => g.ids.filterMap (fun i => (lookup s i).map blockTuple))

/-- The velocity a saved block re-enters with: savedBlock.v or 0. -/
def loadedVel (b : CBlock) : ℤ :=
  if b.velocityY = 0 then 0 else jsRound b.velocityY

/-- Whether a block's rounded save position lies in the grid band that
ColumnManager.addBlock files into a column. -/
def inLoadBounds (b : CBlock) : Prop :=
  GRID_OFFSET_Y ≤ ((jsRound b.y : ℤ) : ℚ) ∧
    ((jsRound b.y : ℤ) : ℚ) < GRID_OFFSET_Y + (ROWS : ℚ) * ROW_HEIGHT

/-- Whether a block re-enters at rest inside the grid band, the
condition under which ColumnManager.addBlock files it into a column. -/
def restLoad (b : CBlock) : Prop :=
  loadedVel b = 0 ∧ inLoadBounds b

/-- The block that loading reproduces from a saved block, given the fresh
id k: rounded position, recomputed row, original column and color, the
reloaded velocity, and grid residency exactly on the at-rest in-band path. -/
def loadedBlock (k : ℕ) (b : CBlock) : CBlock :=
  { id := k, column := b.column,
    row := ⌊(((jsRound b.y : ℤ) : ℚ) - GRID_OFFSET_Y) / ROW_HEIGHT⌋,
    y := ((jsRound b.y : ℤ) : ℚ),
    color := b.color,
    velocityY := ((loadedVel b : ℤ) : ℚ),
    isInGrid := decide ((GRID_OFFSET_Y ≤ ((jsRound b.y : ℤ) : ℚ) ∧
      ((jsRound b.y : ℤ) : ℚ) < GRID_OFFSET_Y + (ROWS : ℚ) * ROW_HEIGHT) ∧
      ((loadedVel b : ℤ) : ℚ) = 0) }

/-- The reloaded master list for a sequence of original blocks, ids
running from k. -/
def loadedList : ℕ → List CBlock → List CBlock
  | _, [] => []
  | k, b :: rest => loadedBlock k b :: loadedList (k + 1) rest

/-- The id sequence a, a+1, ..., a+n-1 that sequential allocation hands
out. -/
def idRange : ℕ → ℕ → List ℕ
  | _, 0 => []
  | a, n + 1 => a :: idRange (a + 1) n

theorem jsRound_intCast (k : ℤ) : jsRound ((k : ℤ) : ℚ) = k := by
  unfold jsRound
  rw [add_comm, Int.floor_add_int]
  norm_num

theorem decodeColor_colorIndex (c : BlockColor) : decodeColor (colorIndex c) = c := by
  cases c <;> rfl

theorem blockTuple_loadedBlock (k : ℕ) (b : CBlock) :
    blockTuple (loadedBlock k b) = blockTuple b := by
  simp [blockTuple, loadedBlock, jsRound_intCast]

theorem loadedList_append (l1 l2 : List CBlock) : ∀ k,
    loadedList k (l1 ++ l2) = loadedList k l1 ++ loadedList (k + l1.length) l2 := by
  induction l1 with
  | nil => intro k; simp [loadedList]
  | cons b bs ih =>
    intro k
    have h2 : k + 1 + bs.length = k + (b :: bs).length := by
      simp only [List.length_cons]
      omega
    show loadedBlock k b :: loadedList (k + 1) (bs ++ l2) = _
    rw [ih (k + 1), h2]
    rfl

theorem mem_idRange (x : ℕ) : ∀ (a n : ℕ), x ∈ idRange a n ↔ a ≤ x ∧ x < a + n := by
  intro a n
  induction n generalizing a with
  | zero =>
    simp only [idRange, List.not_mem_nil, false_iff]
    omega
  | succ m ih =>
    simp only [idRange, List.mem_cons, ih]
    omega

theorem idRange_length : ∀ (a n : ℕ), (idRange a n).length = n := by
  intro a n
  induction n generalizing a with
  | zero => rfl
  | succ m ih => simp [idRange, ih]

theorem idRange_getElem? : ∀ (n a j : ℕ), j < n → (idRange a n)[j]? = some (a + j) := by
  intro n
  induction n with
  | zero => intro a j h; omega
  | succ m ih =>
    intro a j h
    cases j with
    | zero => simp [idRange]
    | succ i =>
      simp only [idRange, List.getElem?_cons_succ]
      rw [ih (a + 1) i (by omega)]
      congr 1
      omega

theorem loadedList_map_id (l : List CBlock) : ∀ k,
    (loadedList k l).map CBlock.id = idRange k l.length := by
  induction l with
  | nil => intro k; rfl
  | cons b bs ih => intro k; simp [loadedList, idRange, loadedBlock, ih]

theorem mem_loadedList_id (x : CBlock) (l : List CBlock) (k : ℕ) (h : x ∈ loadedList k l) :
    k ≤ x.id ∧ x.id < k + l.length := by
  have hx : x.id ∈ (loadedList k l).map CBlock.id := List.mem_map_of_mem _ h
  rw [loadedList_map_id] at hx
  exact (mem_idRange _ _ _).mp hx

theorem foldl_max_idRange : ∀ (n a : ℕ), (idRange (a + 1) n).foldl max a = a + n := by
  intro n
  induction n with
  | zero => intro a; rfl
  | succ m ih =>
    intro a
    show (idRange (a + 1 + 1) m).foldl max (max a (a + 1)) = a + (m + 1)
    rw [max_eq_right (by omega), ih (a + 1)]
    omega

theorem nextId_loaded (s : MState) (done : List CBlock) (hb : s.blocks = loadedList 1 done) :
    nextId s = done.length + 1 := by
  unfold nextId
  rw [hb, loadedList_map_id]
  rw [show (1 : ℕ) = 0 + 1 from rfl, foldl_max_idRange done.length 0]
  omega

theorem find?_id_of_mem (l : List CBlock) (i : ℕ) (h : i ∈ l.map CBlock.id) :
    ∃ x, l.find? (fun b => b.id = i) = some x := by
  obtain ⟨b0, hb0, hid⟩ := List.mem_map.mp h
  have hs : (l.find? (fun b => b.id = i)).isSome :=
    List.find?_isSome.mpr ⟨b0, hb0, by simp [hid]⟩
  exact Option.isSome_iff_exists.mp hs

theorem find?_id_append_left (l : List CBlock) (nb : CBlock) (i : ℕ) (x : CBlock)
    (h : l.find? (fun b => b.id = i) = some x) :
    (l ++ [nb]).find? (fun b => b.id = i) = some x := by
  rw [List.find?_append, h]
  rfl

theorem find?_id_append_new (l : List CBlock) (nb : CBlock)
    (h : ∀ x ∈ l, x.id ≠ nb.id) :
    (l ++ [nb]).find? (fun b => b.id = nb.id) = some nb := by
  have h1 : l.find? (fun b => b.id = nb.id) = none :=
    List.find?_eq_none.mpr (fun x hx => by simp [h x hx])
  rw [List.find?_append, h1]
  simp [List.find?]

theorem find?_loadedList (l : List CBlock) : ∀ (k j : ℕ) (hj : j < l.length),
    (loadedList k l).find? (fun b => b.id = k + j) =
      some (loadedBlock (k + j) (l.get ⟨j, hj⟩)) := by
  induction l with
  | nil => intro k j hj; exact absurd hj (by simp)
  | cons b bs ih =>
    intro k j hj
    cases j with
    | zero =>
      show (loadedBlock k b :: loadedList (k + 1) bs).find? (fun x => x.id = k + 0) = _
      rw [List.find?_cons_of_pos _ (by simp [loadedBlock])]
      rfl
    | succ m =>
      show (loadedBlock k b :: loadedList (k + 1) bs).find? (fun x => x.id = k + (m + 1)) = _
      rw [List.find?_cons_of_neg _ (by simp [loadedBlock])]
      have h2 : k + (m + 1) = k + 1 + m := by omega
      rw [h2]
      exact ih (k + 1) m (by simpa using hj)

theorem find?_loadedList_none (l : List CBlock) (k i : ℕ)
    (h : i < k ∨ k + l.length ≤ i) :
    (loadedList k l).find? (fun b => b.id = i) = none := by
  apply List.find?_eq_none.mpr
  intro x hx
  have hb := mem_loadedList_id x l k hx
  simp
  omega

theorem findIdx?_go_spec (p : CBlock → Bool) : ∀ (l : List CBlock) (st j : ℕ),
    List.findIdx? p l st = some j →
    ∃ m, j = st + m ∧
      ∃ hm : m < l.length, p (l.get ⟨m, hm⟩) = true ∧ l.find? p = some (l.get ⟨m, hm⟩) := by
  intro l
  induction l with
  | nil => intro st j h; simp [List.findIdx?] at h
  | cons x xs ih =>
    intro st j h
    by_cases hx : p x = true
    · rw [List.findIdx?_cons, if_pos hx] at h
      obtain rfl : j = st := by simpa using h.symm
      exact ⟨0, by omega, by simp, hx, by rw [List.find?_cons_of_pos _ hx]; rfl⟩
    · rw [List.findIdx?_cons, if_neg hx] at h
      obtain ⟨m0, rfl, hml, hp, hf⟩ := ih (st + 1) j h
      refine ⟨m0 + 1, by omega, by simpa using Nat.succ_lt_succ hml, by simpa using hp, ?_⟩
      rw [List.find?_cons_of_neg _ hx]
      exact hf

theorem findIdx?_spec (p : CBlock → Bool) (l : List CBlock) (j : ℕ)
    (h : l.findIdx? p = some j) :
    ∃ hj : j < l.length, p (l.get ⟨j, hj⟩) = true ∧ l.find? p = some (l.get ⟨j, hj⟩) := by
  obtain ⟨m, hm, hrest⟩ := findIdx?_go_spec p l 0 j h
  obtain rfl : j = m := by omega
  exact hrest

theorem exists_findIdx? (p : CBlock → Bool) : ∀ (l : List CBlock) (st : ℕ),
    (∃ b ∈ l, p b = true) → ∃ j, List.findIdx? p l st = some j := by
  intro l
  induction l with
  | nil =>
    rintro st ⟨b, hb, -⟩
    simp at hb
  | cons x xs ih =>
    rintro st ⟨b, hb, hpb⟩
    by_cases hx : p x = true
    · exact ⟨st, by rw [List.findIdx?_cons, if_pos hx]⟩
    · rcases List.mem_cons.mp hb with rfl | hb'
      · exact absurd hpb hx
      · obtain ⟨j0, hj0⟩ := ih (st + 1) ⟨b, hb', hpb⟩
        exact ⟨j0, by rw [List.findIdx?_cons, if_neg hx, hj0]⟩

theorem colIds_cleared (c : ℤ) : colIds clearedState c = [] := by
  unfold colIds clearedState
  by_cases h : 0 ≤ c
  · rw [if_pos h]; simp
  · rw [if_neg h]

theorem mem_insertIdByY (env : List CBlock) (a x : ℕ) : ∀ l,
    x ∈ insertIdByY env a l ↔ x = a ∨ x ∈ l := by
  intro l
  induction l with
  | nil => simp [insertIdByY]
  | cons j js ih =>
    show x ∈ (if keyY env a < keyY env j then a :: j :: js else j :: insertIdByY env a js) ↔ _
    by_cases hk : keyY env a < keyY env j
    · rw [if_pos hk]
      simp
    · rw [if_neg hk]
      simp only [List.mem_cons, ih]
      tauto

theorem mem_sortIdsByY (env : List CBlock) (x : ℕ) : ∀ l,
    x ∈ sortIdsByY env l ↔ x ∈ l := by
  intro l
  induction l with
  | nil => simp [sortIdsByY]
  | cons j js ih => simp [sortIdsByY, mem_insertIdByY, ih]

theorem getD_eq_get? {α : Type} (l : List α) (j : ℕ) (d : α) :
    l.getD j d = (l.get? j).getD d := by
  rw [List.getD_eq_getElem?_getD, List.get?_eq_getElem?]

theorem colPush_length (blocks1 : List CBlock) (cols : List (List ℕ)) (bc : ℤ) (nid : ℕ) :
    (colPush blocks1 cols bc nid).length = cols.length := by
  unfold colPush
  by_cases h : 0 ≤ bc
  · rw [if_pos h, modifyIdx_length]
  · rw [if_neg h]

theorem mem_colPush (blocks1 : List CBlock) (cols : List (List ℕ)) (bc : ℤ) (nid : ℕ)
    (j : ℕ) (i : ℕ) (hbc : 0 ≤ bc)
    (hm : i ∈ (colPush blocks1 cols bc nid).getD j []) :
    i ∈ cols.getD j [] ∨ (i = nid ∧ j = bc.toNat) := by
  unfold colPush at hm
  rw [if_pos hbc] at hm
  by_cases hj : j = bc.toNat
  · subst hj
    cases hg : cols.get? bc.toNat with
    | none =>
      have hnone :
          (modifyIdx cols bc.toNat (fun l => sortIdsByY blocks1 (l ++ [nid]))).get? bc.toNat =
            none := by
        rw [List.get?_eq_none] at hg ⊢
        rwa [modifyIdx_length]
      rw [getD_eq_get?, hnone] at hm
      simp at hm
    | some slot =>
      have h2 := modifyIdx_get_self cols bc.toNat (fun l => sortIdsByY blocks1 (l ++ [nid])) slot hg
      rw [getD_eq_get?, h2] at hm
      simp only [Option.getD_some] at hm
      rw [mem_sortIdsByY, List.mem_append] at hm
      rcases hm with h | h
      · left
        rw [getD_eq_get?, hg]
        exact h
      · right
        exact ⟨by simpa using h, rfl⟩
  · left
    rwa [getD_eq_get?, modifyIdx_get_ne _ _ _ _ hj, ← getD_eq_get?] at hm

theorem int_abs_lt_cast (z w : ℤ) (h : (8 : ℤ) < |z - w|) :
    (8 : ℚ) < |(z : ℚ) - (w : ℚ)| := by
  have h2 : ((8 : ℤ) : ℚ) < ((|z - w| : ℤ) : ℚ) := by exact_mod_cast h
  rw [Int.cast_abs] at h2
  push_cast at h2
  convert h2 using 2

theorem managerAddBlock_rest (s : MState) (c : ℤ) (y : ℚ) (color : BlockColor) (v : ℚ)
    (hvc : isValidColumn c = true)
    (hin : GRID_OFFSET_Y ≤ y ∧ y < GRID_OFFSET_Y + (ROWS : ℚ) * ROW_HEIGHT)
    (hv : v = 0)
    (hnone : getBlockAt s c y (ROW_HEIGHT * (1/10)) = none) :
    managerAddBlock s c y color v =
      .ok ({ blocks := s.blocks ++
              [⟨nextId s, c, ⌊(y - GRID_OFFSET_Y) / ROW_HEIGHT⌋, y, color, v, true⟩],
             cols := colPush
               (s.blocks ++ [⟨nextId s, c, ⌊(y - GRID_OFFSET_Y) / ROW_HEIGHT⌋, y, color, v, true⟩])
               s.cols c (nextId s),
             groups := s.groups }, nextId s) := by
  unfold managerAddBlock
  rw [if_pos ⟨hin, hv⟩, if_pos hvc]
  unfold nudgedBlock
  dsimp only
  rw [hnone]

theorem managerAddBlock_free (s : MState) (c : ℤ) (y : ℚ) (color : BlockColor) (v : ℚ)
    (h : ¬ ((GRID_OFFSET_Y ≤ y ∧ y < GRID_OFFSET_Y + (ROWS : ℚ) * ROW_HEIGHT) ∧ v = 0)) :
    managerAddBlock s c y color v =
      .ok ({ s with blocks := s.blocks ++
        [⟨nextId s, c, ⌊(y - GRID_OFFSET_Y) / ROW_HEIGHT⌋, y, color, v, false⟩] }, nextId s) := by
  unfold managerAddBlock
  rw [if_neg h]

theorem serializeBlock_args (b : CBlock) :
    (serializeBlock b).c = b.column ∧
    ((serializeBlock b).y : ℚ) = ((jsRound b.y : ℤ) : ℚ) ∧
    decodeColor (serializeBlock b).co = b.color ∧
    (((serializeBlock b).v.getD 0 : ℤ) : ℚ) = ((loadedVel b : ℤ) : ℚ) := by
  refine ⟨rfl, rfl, decodeColor_colorIndex b.color, ?_⟩
  unfold serializeBlock loadedVel
  by_cases hv : b.velocityY = 0
  · rw [if_pos hv, if_pos hv]
    rfl
  · rw [if_neg hv, if_neg hv]
    rfl

theorem lookup_append (s : MState) (nb : CBlock) (i : ℕ)
    (hmap : i ∈ s.blocks.map CBlock.id) :
    ∃ x0, s.blocks.find? (fun z => z.id = i) = some x0 ∧
      (s.blocks ++ [nb]).find? (fun z => z.id = i) = some x0 := by
  obtain ⟨x0, hx0⟩ := find?_id_of_mem s.blocks i hmap
  exact ⟨x0, hx0, find?_id_append_left _ _ _ _ hx0⟩

theorem colBlocks_transfer (s s1 : MState) (nb : CBlock)
    (hbl : s1.blocks = s.blocks ++ [nb])
    (hcolids : ∀ (c : ℤ) (i : ℕ), i ∈ colIds s c → i ∈ s.blocks.map CBlock.id)
    (c : ℤ) (i : ℕ) (x : CBlock) (hi : i ∈ colIds s c) (hlk : lookup s1 i = some x) :
    x ∈ colBlocks s c := by
  obtain ⟨x0, hfind, happ⟩ := lookup_append s nb i (hcolids c i hi)
  unfold lookup at hlk
  rw [hbl, happ] at hlk
  obtain rfl : x = x0 := (Option.some.inj hlk).symm
  exact List.mem_filterMap.mpr ⟨i, hi, hfind⟩

theorem loadBlocks_ok : ∀ (rest done : List CBlock) (s : MState),
    (∀ b ∈ rest, restLoad b → isValidColumn b.column = true) →
    (∀ b ∈ rest, ∀ d ∈ done, restLoad b → restLoad d → d.column = b.column →
      (8 : ℤ) < |jsRound d.y - jsRound b.y|) →
    List.Pairwise (fun a b => restLoad a → restLoad b → a.column = b.column →
      (8 : ℤ) < |jsRound a.y - jsRound b.y|) rest →
    s.blocks = loadedList 1 done →
    (∀ (c : ℤ) (x : CBlock), x ∈ colBlocks s c →
      ∃ d ∈ done, restLoad d ∧ d.column = c ∧ x.y = ((jsRound d.y : ℤ) : ℚ)) →
    (∀ (c : ℤ) (i : ℕ), i ∈ colIds s c → i ∈ s.blocks.map CBlock.id) →
    s.groups = [] →
    ∃ s' : MState,
      loadBlocks s (rest.map serializeBlock) = .ok (s', idRange (done.length + 1) rest.length) ∧
      s'.blocks = loadedList 1 (done ++ rest) ∧ s'.groups = [] := by
  intro rest
  induction rest with
  | nil =>
    intro done s _ _ _ hb _ _ hg
    refine ⟨s, rfl, ?_, hg⟩
    rw [List.append_nil]
    exact hb
  | cons b rest' ih =>
    intro done s hvalid hsep1 hpair hb hcols hcolids hg
    obtain ⟨ha1, ha2, ha3, ha4⟩ := serializeBlock_args b
    have hnext : nextId s = done.length + 1 := nextId_loaded s done hb
    have hstep : loadBlocks s ((b :: rest').map serializeBlock) =
        match managerAddBlock s b.column ((jsRound b.y : ℤ) : ℚ) b.color
            ((loadedVel b : ℤ) : ℚ) with
        | .error e => .error e
        | .ok (s1, nid) =>
            match loadBlocks s1 (rest'.map serializeBlock) with
            | .error e => .error e
            | .ok (s2, ids) => .ok (s2, nid :: ids) := by
      show loadBlocks s (serializeBlock b :: rest'.map serializeBlock) = _
      rw [loadBlocks, ha1, ha2, ha3, ha4]
    have hvalid' : ∀ x ∈ rest', restLoad x → isValidColumn x.column = true :=
      fun x hx => hvalid x (List.mem_cons_of_mem b hx)
    have hsep1' : ∀ x ∈ rest', ∀ d ∈ done ++ [b], restLoad x → restLoad d →
        d.column = x.column → (8 : ℤ) < |jsRound d.y - jsRound x.y| := by
      intro x hx d hd hrx hrd hdc
      rcases List.mem_append.mp hd with hd' | hd'
      · exact hsep1 x (List.mem_cons_of_mem b hx) d hd' hrx hrd hdc
      · obtain rfl : d = b := by simpa using hd'
        exact (List.pairwise_cons.mp hpair).1 x hx hrd hrx hdc
    have hpair' := (List.pairwise_cons.mp hpair).2
    by_cases hrb : restLoad b
    · -- the block re-enters at rest inside the band and is filed into its column
      have hvc : isValidColumn b.column = true := hvalid b (List.mem_cons_self b rest') hrb
      have hbcr : 0 ≤ b.column ∧ b.column < (COLUMNS : ℤ) := by
        unfold isValidColumn at hvc
        exact of_decide_eq_true hvc
      have hv0 : ((loadedVel b : ℤ) : ℚ) = 0 := by
        rw [hrb.1]
        norm_num
      have hnone : getBlockAt s b.column ((jsRound b.y : ℤ) : ℚ) (ROW_HEIGHT * (1/10)) = none := by
        unfold getBlockAt
        apply List.find?_eq_none.mpr
        intro x hx
        obtain ⟨d, hd, hrd, hdc, hxy⟩ := hcols b.column x hx
        have hsep := hsep1 b (List.mem_cons_self b rest') d hd hrb hrd hdc
        have h8 := int_abs_lt_cast _ _ hsep
        simp only [decide_eq_true_eq]
        rw [hxy]
        intro hle
        rw [show (ROW_HEIGHT * (1/10) : ℚ) = 8 from by norm_num [ROW_HEIGHT]] at hle
        linarith
      rw [managerAddBlock_rest s b.column _ b.color _ hvc ⟨hrb.2.1, hrb.2.2⟩ hv0 hnone] at hstep
      dsimp only at hstep
      set nb : CBlock :=
        ⟨nextId s, b.column, ⌊(((jsRound b.y : ℤ) : ℚ) - GRID_OFFSET_Y) / ROW_HEIGHT⌋,
          ((jsRound b.y : ℤ) : ℚ), b.color, ((loadedVel b : ℤ) : ℚ), true⟩ with hnbdef
      have hnbload : nb = loadedBlock (done.length + 1) b := by
        rw [hnbdef]
        unfold loadedBlock
        rw [hnext, decide_eq_true (⟨⟨hrb.2.1, hrb.2.2⟩, hv0⟩ :
          (GRID_OFFSET_Y ≤ ((jsRound b.y : ℤ) : ℚ) ∧
            ((jsRound b.y : ℤ) : ℚ) < GRID_OFFSET_Y + (ROWS : ℚ) * ROW_HEIGHT) ∧
          ((loadedVel b : ℤ) : ℚ) = 0)]
      have hb1 : (⟨s.blocks ++ [nb],
          colPush (s.blocks ++ [nb]) s.cols b.column (nextId s), s.groups⟩ : MState).blocks =
          loadedList 1 (done ++ [b]) := by
        show s.blocks ++ [nb] = _
        rw [hb, hnbload, loadedList_append done [b] 1, Nat.add_comm 1 done.length]
        rfl
      have hcols1 : ∀ (c : ℤ) (x : CBlock),
          x ∈ colBlocks (⟨s.blocks ++ [nb],
            colPush (s.blocks ++ [nb]) s.cols b.column (nextId s), s.groups⟩ : MState) c →
          ∃ d ∈ done ++ [b], restLoad d ∧ d.column = c ∧ x.y = ((jsRound d.y : ℤ) : ℚ) := by
        intro c x hx
        obtain ⟨i, hi, hlk⟩ := List.mem_filterMap.mp hx
        have hi' : i ∈ colIds s c ∨ (i = nextId s ∧ c = b.column) := by
          unfold colIds at hi
          dsimp only at hi
          by_cases hc0 : 0 ≤ c
          · rw [if_pos hc0] at hi
            rcases mem_colPush _ _ _ _ _ _ hbcr.1 hi with hold | ⟨hi1, hi2⟩
            · left
              unfold colIds
              rw [if_pos hc0]
              exact hold
            · right
              exact ⟨hi1, by omega⟩
          · rw [if_neg hc0] at hi
            simp at hi
        rcases hi' with hiold | ⟨rfl, rfl⟩
        · obtain ⟨d, hd, h1, h2, h3⟩ :=
            hcols _ x (colBlocks_transfer s _ nb rfl hcolids _ i x hiold hlk)
          exact ⟨d, List.mem_append_left _ hd, h1, h2, h3⟩
        · have hne : ∀ z ∈ s.blocks, z.id ≠ nb.id := by
            intro z hz
            rw [hb] at hz
            have hzid := mem_loadedList_id z done 1 hz
            rw [hnbdef]
            dsimp only
            omega
          have hnbid : nb.id = nextId s := by rw [hnbdef]
          have hfind := find?_id_append_new s.blocks nb hne
          rw [hnbid] at hfind
          unfold lookup at hlk
          dsimp only at hlk
          rw [hfind] at hlk
          obtain rfl : x = nb := (Option.some.inj hlk).symm
          refine ⟨b, List.mem_append_right _ (List.mem_singleton_self b), hrb, rfl, ?_⟩
          rw [hnbdef]
      have hcolids1 : ∀ (c : ℤ) (i : ℕ),
          i ∈ colIds (⟨s.blocks ++ [nb],
            colPush (s.blocks ++ [nb]) s.cols b.column (nextId s), s.groups⟩ : MState) c →
          i ∈ (⟨s.blocks ++ [nb],
            colPush (s.blocks ++ [nb]) s.cols b.column (nextId s), s.groups⟩ :
              MState).blocks.map CBlock.id := by
        intro c i hi
        show i ∈ (s.blocks ++ [nb]).map CBlock.id
        rw [List.map_append]
        unfold colIds at hi
        dsimp only at hi
        by_cases hc0 : 0 ≤ c
        · rw [if_pos hc0] at hi
          rcases mem_colPush _ _ _ _ _ _ hbcr.1 hi with hold | ⟨rfl, -⟩
          · have hi0 : i ∈ colIds s c := by
              unfold colIds
              rw [if_pos hc0]
              exact hold
            exact List.mem_append_left _ (hcolids c i hi0)
          · apply List.mem_append_right
            rw [hnbdef]
            simp
        · rw [if_neg hc0] at hi
          simp at hi
      obtain ⟨s', hload', hblocks', hgroups'⟩ :=
        ih (done ++ [b])
          ⟨s.blocks ++ [nb], colPush (s.blocks ++ [nb]) s.cols b.column (nextId s), s.groups⟩
          hvalid' hsep1' hpair' hb1 hcols1 hcolids1 hg
      refine ⟨s', ?_, ?_, hgroups'⟩
      · rw [hload'] at hstep
        dsimp only at hstep
        rw [hstep, hnext]
        simp only [List.length_append, List.length_cons, List.length_nil]
        rfl
      · rw [hblocks', List.append_assoc]
        rfl
    · -- the block re-enters in motion or out of band: master list push only
      have hcond : ¬ ((GRID_OFFSET_Y ≤ ((jsRound b.y : ℤ) : ℚ) ∧
          ((jsRound b.y : ℤ) : ℚ) < GRID_OFFSET_Y + (ROWS : ℚ) * ROW_HEIGHT) ∧
          ((loadedVel b : ℤ) : ℚ) = 0) := by
        intro hcontra
        refine hrb ⟨?_, hcontra.1⟩
        exact_mod_cast hcontra.2
      rw [managerAddBlock_free s b.column _ b.color _ hcond] at hstep
      dsimp only at hstep
      set nb : CBlock :=
        ⟨nextId s, b.column, ⌊(((jsRound b.y : ℤ) : ℚ) - GRID_OFFSET_Y) / ROW_HEIGHT⌋,
          ((jsRound b.y : ℤ) : ℚ), b.color, ((loadedVel b : ℤ) : ℚ), false⟩ with hnbdef
      have hnbload : nb = loadedBlock (done.length + 1) b := by
        rw [hnbdef]
        unfold loadedBlock
        rw [hnext, decide_eq_false hcond]
      have hb1 : ({ s with blocks := s.blocks ++ [nb] } : MState).blocks =
          loadedList 1 (done ++ [b]) := by
        show s.blocks ++ [nb] = _
        rw [hb, hnbload, loadedList_append done [b] 1, Nat.add_comm 1 done.length]
        rfl
      have hcols1 : ∀ (c : ℤ) (x : CBlock),
          x ∈ colBlocks ({ s with blocks := s.blocks ++ [nb] } : MState) c →
          ∃ d ∈ done ++ [b], restLoad d ∧ d.column = c ∧ x.y = ((jsRound d.y : ℤ) : ℚ) := by
        intro c x hx
        obtain ⟨i, hi, hlk⟩ := List.mem_filterMap.mp hx
        have hi0 : i ∈ colIds s c := by
          unfold colIds at hi ⊢
          dsimp only at hi
          exact hi
        obtain ⟨d, hd, h1, h2, h3⟩ :=
          hcols _ x (colBlocks_transfer s _ nb rfl hcolids _ i x hi0 hlk)
        exact ⟨d, List.mem_append_left _ hd, h1, h2, h3⟩
      have hcolids1 : ∀ (c : ℤ) (i : ℕ),
          i ∈ colIds ({ s with blocks := s.blocks ++ [nb] } : MState) c →
          i ∈ ({ s with blocks := s.blocks ++ [nb] } : MState).blocks.map CBlock.id := by
        intro c i hi
        have hi0 : i ∈ colIds s c := by
          unfold colIds at hi ⊢
          dsimp only at hi
          exact hi
        show i ∈ (s.blocks ++ [nb]).map CBlock.id
        rw [List.map_append]
        exact List.mem_append_left _ (hcolids c i hi0)
      obtain ⟨s', hload', hblocks', hgroups'⟩ :=
        ih (done ++ [b]) ({ s with blocks := s.blocks ++ [nb] } : MState)
          hvalid' hsep1' hpair' hb1 hcols1 hcolids1 hg
      refine ⟨s', ?_, ?_, hgroups'⟩
      · rw [hload'] at hstep
        dsimp only at hstep
        rw [hstep, hnext]
        simp only [List.length_append, List.length_cons, List.length_nil]
        rfl
      · rw [hblocks', List.append_assoc]
        rfl

theorem tuples_loadedList : ∀ (l : List CBlock) (k : ℕ),
    (loadedList k l).map blockTuple = l.map blockTuple := by
  intro l
  induction l with
  | nil => intro k; rfl
  | cons b bs ih => intro k; simp [loadedList, blockTuple_loadedBlock, ih]

theorem loadGroup_tuples (s : MState) (ids : List ℕ) (sg : SavedGroup) :
    tuples (loadGroup s ids sg) = tuples s := by
  unfold loadGroup
  by_cases hm : (resolvedIds ids sg).isEmpty
  · rw [if_pos hm]
  · rw [if_neg hm]
    unfold tuples
    dsimp only
    rw [List.map_map]
    apply List.map_congr_left
    intro x hx
    by_cases h : x.id ∈ resolvedIds ids sg <;> simp [blockTuple, h]

theorem loadGroup_lookup_tuple (s : MState) (ids : List ℕ) (sg : SavedGroup) (i : ℕ) :
    (lookup (loadGroup s ids sg) i).map blockTuple = (lookup s i).map blockTuple := by
  unfold loadGroup
  by_cases hm : (resolvedIds ids sg).isEmpty
  · rw [if_pos hm]
  · rw [if_neg hm]
    unfold lookup
    dsimp only
    rw [List.find?_map]
    have hpf : ((fun z : CBlock => decide (z.id = i)) ∘
        (fun b => if b.id ∈ resolvedIds ids sg then { b with velocityY := (sg.v : ℚ) } else b)) =
        (fun b : CBlock => decide (b.id = i)) := by
      funext b
      by_cases h : b.id ∈ resolvedIds ids sg <;> simp [h]
    rw [hpf]
    cases hf : s.blocks.find? (fun b => decide (b.id = i)) with
    | none => rfl
    | some x =>
      by_cases h : x.id ∈ resolvedIds ids sg <;> simp [blockTuple, h]

theorem loadGroup_groups (s : MState) (ids : List ℕ) (sg : SavedGroup) :
    (loadGroup s ids sg).groups = s.groups ++
      (if (resolvedIds ids sg).isEmpty then []
       else [⟨resolvedIds ids sg, (sg.v : ℚ), sg.bc.getD 0⟩]) := by
  unfold loadGroup
  by_cases hm : (resolvedIds ids sg).isEmpty
  · rw [if_pos hm, if_pos hm]
    simp
  · rw [if_neg hm, if_neg hm]

theorem loadGroups_tuples : ∀ (gs : List SavedGroup) (s : MState) (ids : List ℕ),
    tuples (loadGroups s ids gs) = tuples s := by
  intro gs
  induction gs with
  | nil => intro s ids; rfl
  | cons sg rest ih =>
    intro s ids
    show tuples (loadGroups (loadGroup s ids sg) ids rest) = _
    rw [ih, loadGroup_tuples]

theorem loadGroups_lookup_tuple : ∀ (gs : List SavedGroup) (s : MState) (ids : List ℕ) (i : ℕ),
    (lookup (loadGroups s ids gs) i).map blockTuple = (lookup s i).map blockTuple := by
  intro gs
  induction gs with
  | nil => intro s ids i; rfl
  | cons sg rest ih =>
    intro s ids i
    show (lookup (loadGroups (loadGroup s ids sg) ids rest) i).map blockTuple = _
    rw [ih, loadGroup_lookup_tuple]

theorem loadGroups_groups : ∀ (gs : List SavedGroup) (s : MState) (ids : List ℕ),
    (loadGroups s ids gs).groups = s.groups ++
      gs.filterMap (fun sg => if (resolvedIds ids sg).isEmpty then none
        else some (⟨resolvedIds ids sg, (sg.v : ℚ), sg.bc.getD 0⟩ : MGroup)) := by
  intro gs
  induction gs with
  | nil => intro s ids; simp [loadGroups]
  | cons sg rest ih =>
    intro s ids
    show (loadGroups (loadGroup s ids sg) ids rest).groups = _
    rw [ih, loadGroup_groups, List.filterMap_cons]
    by_cases hm : (resolvedIds ids sg).isEmpty
    · rw [if_pos hm, if_pos hm]
      simp
    · rw [if_neg hm, if_neg hm]
      simp

theorem filterMap_ne_nil {α β : Type} (f : α → Option β) (l : List α) (hl : l ≠ [])
    (hf : ∀ x ∈ l, ∃ y, f x = some y) : l.filterMap f ≠ [] := by
  cases l with
  | nil => exact absurd rfl hl
  | cons x xs =>
    obtain ⟨y, hy⟩ := hf x (List.mem_cons_self x xs)
    simp [List.filterMap_cons, hy]

/-- C8, amended: the round trip preserves the unit tuples and the group
memberships only under hygiene conditions the claim leaves implicit: every
unit that would re-enter at rest inside the grid band sits in a valid
column, any two such units of one column keep their rounded positions more
than the 8 pixel overlap tolerance apart (otherwise Column.addBlock nudges
one a full cell up on reload), and every group is non-empty with members
present in the master list.  Under these conditions loading the serialized
board succeeds and reproduces the (column, rounded y, color) tuples in
order and the same member tuple list for every group. -/
theorem c8_roundTrip_amended (s : MState)
    (hvalid : ∀ b ∈ s.blocks, restLoad b → isValidColumn b.column = true)
    (hsep : List.Pairwise (fun a b => restLoad a → restLoad b → a.column = b.column →
      (8 : ℤ) < |jsRound a.y - jsRound b.y|) s.blocks)
    (hgm : ∀ g ∈ s.groups, g.ids ≠ [] ∧ ∀ i ∈ g.ids, ∃ b ∈ s.blocks, b.id = i) :
    ∃ t : MState, loadGameState (serialize s) = .ok t ∧
      tuples t = tuples s ∧ memberTuples t = memberTuples s := by
  obtain ⟨s', hload, hblocks', hgroups'⟩ :=
    loadBlocks_ok s.blocks [] clearedState hvalid
      (by intro b hb d hd; exact absurd hd (List.not_mem_nil d))
      hsep rfl
      (by
        intro c x hx
        unfold colBlocks at hx
        rw [colIds_cleared] at hx
        simp at hx)
      (by
        intro c i hi
        rw [colIds_cleared] at hi
        simp at hi)
      rfl
  rw [List.nil_append] at hblocks'
  refine ⟨loadGroups s' (idRange 1 s.blocks.length) (serializeGroups s.blocks s.groups),
    ?_, ?_, ?_⟩
  · unfold loadGameState serialize
    dsimp only
    rw [hload]
    rfl
  · rw [loadGroups_tuples]
    unfold tuples
    rw [hblocks', tuples_loadedList]
  · have key : ∀ gs0 : List MGroup,
        (∀ g ∈ gs0, g.ids ≠ [] ∧ ∀ i ∈ g.ids, ∃ b ∈ s.blocks, b.id = i) →
        ((serializeGroups s.blocks gs0).filterMap (fun sg =>
            if (resolvedIds (idRange 1 s.blocks.length) sg).isEmpty then none
            else some (⟨resolvedIds (idRange 1 s.blocks.length) sg, (sg.v : ℚ),
              sg.bc.getD 0⟩ : MGroup))).map
          (fun g => g.ids.filterMap (fun i =>
            (lookup (loadGroups s' (idRange 1 s.blocks.length)
              (serializeGroups s.blocks s.groups)) i).map blockTuple)) =
        gs0.map (fun g => g.ids.filterMap (fun i => (lookup s i).map blockTuple)) := by
      intro gs0
      induction gs0 with
      | nil => intro _; rfl
      | cons g rest ihg =>
        intro hcons
        obtain ⟨hne, hmem⟩ := hcons g (List.mem_cons_self g rest)
        have hrest := fun g' hg' => hcons g' (List.mem_cons_of_mem g hg')
        have hpoint : ∀ i ∈ g.ids,
            ((idxOfId s.blocks i).bind (fun idx =>
              ((idRange 1 s.blocks.length)[idx]?).bind (fun i' =>
                (lookup (loadGroups s' (idRange 1 s.blocks.length)
                  (serializeGroups s.blocks s.groups)) i').map blockTuple))) =
            (lookup s i).map blockTuple ∧
            ∃ j, idxOfId s.blocks i = some j ∧ j < s.blocks.length := by
          intro i hi
          obtain ⟨b0, hb0, hbid⟩ := hmem i hi
          obtain ⟨j, hj⟩ :=
            exists_findIdx? (fun z => decide (z.id = i)) s.blocks 0 ⟨b0, hb0, by simp [hbid]⟩
          have hj' : idxOfId s.blocks i = some j := hj
          obtain ⟨hjl, hpj, hfind⟩ := findIdx?_spec _ _ _ hj
          have hfind' : lookup s i = some (s.blocks.get ⟨j, hjl⟩) := hfind
          have hget : (idRange 1 s.blocks.length)[j]? = some (1 + j) :=
            idRange_getElem? _ 1 j hjl
          have hlkup : lookup s' (1 + j) =
              some (loadedBlock (1 + j) (s.blocks.get ⟨j, hjl⟩)) := by
            unfold lookup
            rw [hblocks']
            exact find?_loadedList s.blocks 1 j hjl
          refine ⟨?_, j, hj', hjl⟩
          rw [hj', Option.some_bind, hget, Option.some_bind, loadGroups_lookup_tuple,
            hlkup, hfind']
          simp [blockTuple_loadedBlock]
        have hbine : g.ids.filterMap (idxOfId s.blocks) ≠ [] := by
          apply filterMap_ne_nil _ _ hne
          intro i hi
          obtain ⟨-, j, hj, -⟩ := hpoint i hi
          exact ⟨j, hj⟩
        have hserial : serializeGroups s.blocks (g :: rest) =
            ⟨g.ids.filterMap (idxOfId s.blocks), jsRound g.velocityY,
              if 0 < g.boostCount then some g.boostCount else none⟩ ::
            serializeGroups s.blocks rest := by
          show (if (g.ids.filterMap (idxOfId s.blocks)).isEmpty then
              serializeGroups s.blocks rest
            else (⟨g.ids.filterMap (idxOfId s.blocks), jsRound g.velocityY,
              if 0 < g.boostCount then some g.boostCount else none⟩ : SavedGroup) ::
              serializeGroups s.blocks rest) = _
          rw [if_neg (by simp [List.isEmpty_iff, hbine])]
        have hrne : resolvedIds (idRange 1 s.blocks.length)
            ⟨g.ids.filterMap (idxOfId s.blocks), jsRound g.velocityY,
              if 0 < g.boostCount then some g.boostCount else none⟩ ≠ [] := by
          apply filterMap_ne_nil _ _ hbine
          intro j hjmem
          obtain ⟨i, hi, hij⟩ := List.mem_filterMap.mp hjmem
          obtain ⟨hjl, -, -⟩ := findIdx?_spec _ _ _ hij
          exact ⟨1 + j, idRange_getElem? _ 1 j hjl⟩
        rw [hserial, List.filterMap_cons]
        dsimp only
        rw [if_neg (by simp [List.isEmpty_iff, hrne])]
        dsimp only
        rw [List.map_cons, List.map_cons]
        congr 1
        · dsimp only [resolvedIds]
          rw [List.filterMap_filterMap, List.filterMap_filterMap]
          apply List.filterMap_congr
          intro i hi
          exact (hpoint i hi).1
        · exact ihg hrest
    unfold memberTuples
    rw [loadGroups_groups, hgroups', List.nil_append]
    exact key s.groups hgm

/-- A hygienic board for the round trip: one grid-resident red unit and
one fast-moving grouped unit. -/
def c8state : MState :=
  ⟨[⟨1, 0, 5, 470, .red, 0, true⟩, ⟨2, 3, 2, 230, .blue, -900, false⟩],
   [[1], [], [], [], [], [], [], [], []],
   [⟨[2], -900, 1⟩]⟩

theorem c8_roundTrip_amended_witness :
    ∃ t : MState, loadGameState (serialize c8state) = .ok t ∧
      tuples t = tuples c8state ∧ memberTuples t = memberTuples c8state :=
  c8_roundTrip_amended c8state
    (by
      intro b hb
      simp only [c8state, List.mem_cons, List.not_mem_nil, or_false] at hb
      rcases hb with rfl | rfl <;> exact fun _ => by decide)
    (by
      refine List.Pairwise.cons ?_ (List.pairwise_singleton _ _)
      intro b hb
      simp only [List.mem_cons, List.not_mem_nil, or_false] at hb
      subst hb
      intro _ _ hcol
      exact absurd hcol (by decide))
    (by
      intro g hg
      simp only [c8state, List.mem_cons, List.not_mem_nil, or_false] at hg
      subst hg
      refine ⟨by simp, ?_⟩
      intro i hi
      simp only [List.mem_cons, List.not_mem_nil, or_false] at hi
      subst hi
      exact ⟨⟨2, 3, 2, 230, .blue, -900, false⟩, by simp [c8state], rfl⟩)

/-- The board that breaks the round trip: a free grey unit drifting at
velocity below one half of a pixel per second, 4 pixels under a resting
unit of the same column. -/
def c8bad : MState :=
  ⟨[⟨1, 0, 5, 470, .red, 0, true⟩, ⟨2, 0, 5, 474, .grey, -3/10, false⟩],
   [[1], [], [], [], [], [], [], [], []], []⟩

theorem c8bad_eval :
    loadGameState (serialize c8bad) =
      .ok ⟨[⟨1, 0, 5, 470, .red, 0, true⟩, ⟨2, 0, 5, 390, .grey, 0, true⟩],
           [[2, 1], [], [], [], [], [], [], [], []], []⟩ := by
  simp [loadGameState, serialize, serializeGroups, serializeBlock, colorIndex, PLAYABLE_COLORS,
    c8bad, loadBlocks, loadGroups, decodeColor, managerAddBlock, clearedState, nextId,
    nudgedBlock, getBlockAt, colBlocks, colIds, lookup, colPush, modifyIdx, sortIdsByY,
    insertIdByY, keyY, isValidColumn, jsRound, GRID_OFFSET_Y, ROWS, ROW_HEIGHT,
    COLUMNS, List.findIdx_cons] <;> norm_num <;>
    simp [modifyIdx, sortIdsByY, insertIdByY, keyY, lookup, List.find?] <;> norm_num

/-- C8, counterexample: serialization rounds the velocity, so the free
grey unit saved with velocity between minus one half and zero reloads
with velocity 0; being inside the grid band it is now filed into column 0,
where it overlaps the resting unit within the 8 pixel tolerance and
Column.addBlock moves it a full cell up, from rounded y 474 to 390.  The
reloaded tuple set differs from the saved board's. -/
theorem c8_roundTrip_counterexample :
    (loadGameState (serialize c8bad)).map tuples =
      .ok [(0, 470, BlockColor.red), (0, 390, BlockColor.grey)] ∧
    tuples c8bad = [(0, 470, BlockColor.red), (0, 474, BlockColor.grey)] ∧
    ([(0, (470 : ℤ), BlockColor.red), (0, 390, BlockColor.grey)] :
        List (ℤ × ℤ × BlockColor)) ≠
      [(0, 470, BlockColor.red), (0, 474, BlockColor.grey)] := by
  refine ⟨?_, ?_, by decide⟩
  · rw [c8bad_eval]
    simp [tuples, blockTuple, jsRound, Except.map] <;> norm_num
  · simp [tuples, blockTuple, c8bad, jsRound] <;> norm_num

theorem c9_velocitySync_witness :
    (⟨1, 0, 5, 470, .red, 5, true⟩ : CBlock).velocityY = (g9.setVelocity 5).velocityY :=
  (c9_velocitySync g9 g9 ⟨2, 0, 4, 390, .blue, 0, false⟩ 5 16 false
      (by intro x hx; simp [g9] at hx; subst hx; rfl)).2.1
    ⟨1, 0, 5, 470, .red, 5, true⟩
    (by simp [g9, BlockGroup.setVelocity])

end BlastOff
